import Mathlib

/-!
Verification development for the Teamwork task delegation engine.

The Python sources embedded here are:
 * `adws/adw_modules/data_models.py` (TeamworkTask methods, TeamworkCronConfig)
 * `adws/adw_build_update_teamwork_task.py` and
   `adws/adw_plan_implement_update_teamwork_task.py` (workflow scripts)
 * `archive/python-adws-20251111/adws/adw_get_teamwork_tasks_direct.py`
   (trigger detection / tag extraction / prompt extraction; the identical
   functions also appear in `adw_trigger_cron_teamwork_tasks_simple.py`
   and `adw_trigger_cron_teamwork_tasks_split.py`)
 * `archive/python-adws-20251111/adws/adw_triggers/adw_trigger_cron_teamwork_tasks.py`
   (TeamworkTaskManager: delegate_task, run_once)
 * `archive/python-adws-20251111/adws/adw_triggers/adw_trigger_cron_teamwork_tasks_split.py`
   (the split-command polling cycle)

Strings are modelled as `List Char`.  Python regular expressions are
modelled at ASCII level: `\s` is the six ASCII whitespace characters,
`\w` is ASCII alphanumerics plus underscore, `re.IGNORECASE` compares
ASCII-lowercased characters.  Remote calls, the random id generator,
timestamps and subprocess spawning are oracles passed in as explicit
inputs; the embedding records the calls the code would issue.
-/

/-- Python `\s` (and `str.strip()` whitespace) at ASCII level:
space, tab, newline, carriage return, vertical tab, form feed. -/
def isPyWs (c : Char) : Bool :=
  c = ' ' || c = '\t' || c = '\n' || c = '\r' || c = '\x0b' || c = '\x0c'

/-- Python `\w` at ASCII level: alphanumerics and underscore. -/
def isWordChar (c : Char) : Bool :=
  c.isAlphanum || c = '_'

/-- ASCII lowercasing of one character, as used by `re.IGNORECASE`
and `str.lower()` on ASCII input. -/
def lowerChar (c : Char) : Char :=
  if 65 ≤ c.toNat ∧ c.toNat ≤ 90 then Char.ofNat (c.toNat + 32) else c

/-- Python `str.lower()` (ASCII model). -/
def pyLower (s : List Char) : List Char := s.map lowerChar

/-- Drop trailing whitespace (the right half of Python `str.strip()`). -/
def dropTrailWs (s : List Char) : List Char :=
  (s.reverse.dropWhile isPyWs).reverse

/-- Python `str.strip()`: remove leading and trailing whitespace. -/
def pyStrip (s : List Char) : List Char :=
  dropTrailWs (s.dropWhile isPyWs)

/-- Case-insensitive literal matcher: if `s` begins with a case
variant of `pat`, return the remainder of `s`, else `none`.  This is
how a literal inside an `re.IGNORECASE` pattern consumes input. -/
def ciStrip : List Char → List Char → Option (List Char)
  | [], s => some s
  | _ :: _, [] => none
  | p :: ps, c :: cs => if lowerChar p = lowerChar c then ciStrip ps cs else none

/-- Case-insensitive substring test: does a case variant of `pat`
occur anywhere in `s`?  Mirrors `re.search` of a literal with
`re.IGNORECASE`. -/
def ciHasPat (pat : List Char) (s : List Char) : Bool :=
  if (ciStrip pat s).isSome then true else
  match s with
  | [] => false
  | _ :: r => ciHasPat pat r

/-- Case-sensitive substring test (scan all suffixes). -/
def hasInfixL (pat : List Char) (s : List Char) : Bool :=
  if pat.isPrefixOf s then true else
  match s with
  | [] => false
  | _ :: r => hasInfixL pat r

def executeChars : List Char := "execute".toList

def continueChars : List Char := "continue".toList

/-!
Trigger detection, from `adw_get_teamwork_tasks_direct.py` lines 57-75
(`detect_execution_trigger`); identical code in the simple and split
trigger scripts.

```python
def detect_execution_trigger(description):
    if description.strip().endswith('execute'):
        return "execute"
    if re.search(r'continue\s*-\s*.+', description, re.IGNORECASE):
        return "continue"
    return None
```

The search for `continue\s*-\s*.+` (no DOTALL) is modelled by scanning
every suffix.  After the literal `-`, the pattern `\s*.+` succeeds
exactly when some character reachable through a run of whitespace is
not a newline: `.` matches any character except `\n`, and `\s*` can
stop at any point of the whitespace run by backtracking.
-/

/-- Tail test for `\s*.+` (without DOTALL) after the hyphen: the
regex engine can consume a whitespace run and must then see one
character that is not a newline. -/
def afterDashOk : List Char → Bool
  | [] => false
  | c :: r => (c != '\n') || (isPyWs c && afterDashOk r)

/-- Tail test for `\s*-` then `\s*.+`: whitespace characters are
consumed until the hyphen (a hyphen is not whitespace, so the greedy
`\s*` has no choice). -/
def dashTail : List Char → Bool
  | [] => false
  | c :: r => if c = '-' then afterDashOk r else if isPyWs c then dashTail r else false

/-- Attempt of the `continue\s*-\s*.+` pattern at one position. -/
def matchContinueAt (s : List Char) : Bool :=
  match ciStrip continueChars s with
  | some rest => dashTail rest
  | none => false

/-- Whether `re.search(r'continue\s*-\s*.+', s, re.IGNORECASE)` finds
a match: try every start position. -/
def hasContinueTrigger : List Char → Bool
  | [] => false
  | c :: r => matchContinueAt (c :: r) || hasContinueTrigger r

/-- Embedding of `detect_execution_trigger`.  Note the endswith test
is case sensitive in the source. -/
def detect_execution_trigger (description : List Char) : Option (List Char) :=
  if executeChars.isSuffixOf (pyStrip description) then some executeChars
  else if hasContinueTrigger description then some continueChars
  else none

/-!
Inline tag matching, from `adw_get_teamwork_tasks_direct.py` lines
22-36 (`extract_inline_tags`) and 92-95 (the tag-removal in
`extract_task_prompt`).  The pattern is `\{\{(\w+):\s*([^}]+)\}\}`.
Since `\s*` can match the empty string and whitespace is not `}`,
the combined `\s*[^}]+` matches exactly the nonempty brace-free runs,
greedily: the value run is the maximal run of characters other than
`}`, and the two closing braces must follow it immediately.
-/

/-- Attempt of the tag pattern `\{\{\w+:\s*[^}]+\}\}` at one position;
on success return the input remaining after the matched span. -/
def matchTagAt : List Char → Option (List Char)
  | c1 :: c2 :: rest =>
    if c1 = '{' ∧ c2 = '{' then
      match rest.dropWhile isWordChar with
      | d :: r2 =>
        if d = ':' ∧ ¬(rest.takeWhile isWordChar).isEmpty then
          match r2.dropWhile (fun c => c != '}') with
          | e1 :: e2 :: r4 =>
            if e1 = '}' ∧ e2 = '}' ∧ ¬(r2.takeWhile (fun c => c != '}')).isEmpty then
              some r4
            else none
          | _ => none
        else none
      | _ => none
    else none
  | _ => none

theorem matchTagAt_length {s r : List Char} (h : matchTagAt s = some r) :
    r.length < s.length := by
  match s with
  | [] => simp [matchTagAt] at h
  | [c] => simp [matchTagAt] at h
  | c1 :: c2 :: rest =>
    simp only [matchTagAt] at h
    split at h
    · rename_i hbr
      split at h
      · rename_i d r2 hdw
        split at h
        · rename_i hcol
          split at h
          · rename_i e1 e2 r4 hval
            split at h
            · have hr : r4 = r := by injection h
              subst hr
              have h2 : r2.length < rest.length := by
                have := congrArg List.length hdw
                have hle := (List.dropWhile_sublist (l := rest) isWordChar).length_le
                simp at this
                omega
              have h4 : r4.length + 2 ≤ r2.length := by
                have := congrArg List.length hval
                have hle := (List.dropWhile_sublist (l := r2)
                  (fun c => c != '}')).length_le
                simp at this
                omega
              simp
              omega
            · exact absurd h (by simp)
          · exact absurd h (by simp)
        · exact absurd h (by simp)
      · exact absurd h (by simp)
    · exact absurd h (by simp)

/-- Fuel-driven scan of `re.sub(r'\{\{\w+:\s*[^}]+\}\}', '', s)`:
try the tag pattern at each position; on a match, continue after the
matched span; otherwise keep the character.  Fuel at least the length
of the input makes the scan total. -/
def rTagsF : Nat → List Char → List Char
  | 0, s => s
  | Nat.succ n, s =>
    match s with
    | [] => []
    | c :: r =>
      match matchTagAt (c :: r) with
      | some rest => rTagsF n rest
      | none => c :: rTagsF n r

/-- Embedding of the inline-tag removal
`re.sub(r'\{\{\w+:\s*[^}]+\}\}', '', prompt)`. -/
def removeInlineTags (s : List Char) : List Char := rTagsF s.length s

/-!
Trailing-trigger removal, from `extract_task_prompt`:

```python
prompt = re.sub(r'\s*execute\s*$', '', prompt, flags=re.IGNORECASE)
```

A match of `\s*execute\s*$` at position `p` consumes the whitespace
run from `p` (greedy and forced: `e`/`E` is not whitespace), then the
literal `execute` case-insensitively, and the rest of the string must
be whitespace (`$` also matches before a final newline, which the
greedy `\s*` consumes anyway).  `re.sub` erases the leftmost match,
which runs to the end of the string, so the scan below returns the
text before the first matching position.
-/

/-- Whether the whole of `s` matches `\s*execute\s*$` (IGNORECASE). -/
def matchExecSuffix (s : List Char) : Bool :=
  match ciStrip executeChars (s.dropWhile isPyWs) with
  | some rest => rest.all isPyWs
  | none => false

/-- Erase the leftmost match of `\s*execute\s*$`, if any. -/
def removeExecSuffix : List Char → List Char
  | [] => []
  | c :: r => if matchExecSuffix (c :: r) then [] else c :: removeExecSuffix r

/-- Whether some suffix of `s` matches `\s*execute\s*$`. -/
def anyExecSuffix : List Char → Bool
  | [] => false
  | c :: r => matchExecSuffix (c :: r) || anyExecSuffix r

/-!
Continue-capture, from `extract_task_prompt`:

```python
match = re.search(r'continue\s*-\s*(.+)', prompt, re.IGNORECASE | re.DOTALL)
if match:
    return match.group(1).strip()
```

With DOTALL, after the hyphen the greedy `\s*` consumes the whitespace
run; `(.+)` then takes everything that remains, and if nothing remains
the engine backtracks one whitespace character into the group.
-/

/-- After a matched `continue` literal: consume `\s*`, require `-`,
and produce the regex group `(.+)` under DOTALL greedy semantics. -/
def dashGroup : List Char → Option (List Char)
  | [] => none
  | c :: r =>
    if c = '-' then
      match r with
      | [] => none
      | _ :: _ =>
        let tail := r.dropWhile isPyWs
        some (if tail.isEmpty then r.drop (r.length - 1) else tail)
    else if isPyWs c then dashGroup r
    else none

/-- Leftmost match of `continue\s*-\s*(.+)` (IGNORECASE, DOTALL),
returning the captured group. -/
def findContinueGroup : List Char → Option (List Char)
  | [] => none
  | c :: r =>
    match (match ciStrip continueChars (c :: r) with
           | some rest => dashGroup rest
           | none => none) with
    | some g => some g
    | none => findContinueGroup r

/-- Embedding of `extract_task_prompt(description, execution_trigger)`
from `adw_get_teamwork_tasks_direct.py` lines 78-106. -/
def extract_task_prompt (description : List Char) (trigger : Option (List Char)) :
    List Char :=
  let prompt := removeInlineTags description
  if trigger = some executeChars then
    pyStrip (removeExecSuffix prompt)
  else if trigger = some continueChars then
    match findContinueGroup prompt with
    | some g => pyStrip g
    | none => pyStrip prompt
  else pyStrip prompt

/-!
Embedding of `TeamworkTask.get_task_prompt_for_agent`
(`adws/adw_modules/data_models.py` lines 298-307).  It uses a looser
tag pattern `\{\{[^}]+\}\}` and a case-sensitive `str.replace` of
every `execute` occurrence.
-/

/-- Attempt of `\{\{[^}]+\}\}` at one position. -/
def matchSimpleTagAt : List Char → Option (List Char)
  | c1 :: c2 :: rest =>
    if c1 = '{' ∧ c2 = '{' then
      match rest.dropWhile (fun c => c != '}') with
      | e1 :: e2 :: r4 =>
        if e1 = '}' ∧ e2 = '}' ∧ ¬(rest.takeWhile (fun c => c != '}')).isEmpty then
          some r4
        else none
      | _ => none
    else none
  | _ => none

/-- Fuel-driven scan of `re.sub(r'\{\{[^}]+\}\}', '', s)`. -/
def rSimpleF : Nat → List Char → List Char
  | 0, s => s
  | Nat.succ n, s =>
    match s with
    | [] => []
    | c :: r =>
      match matchSimpleTagAt (c :: r) with
      | some rest => rSimpleF n rest
      | none => c :: rSimpleF n r

def removeSimpleTags (s : List Char) : List Char := rSimpleF s.length s

/-- Fuel-driven scan of Python `str.replace(pat, '')` (case
sensitive, leftmost, non-overlapping). -/
def pyReplaceF (pat : List Char) : Nat → List Char → List Char
  | 0, s => s
  | Nat.succ n, [] => []
  | Nat.succ n, c :: r =>
    if pat.isPrefixOf (c :: r) then pyReplaceF pat n ((c :: r).drop pat.length)
    else c :: pyReplaceF pat n r

def pyReplaceAll (pat s : List Char) : List Char := pyReplaceF pat s.length s

/-! Data model functions from `adws/adw_modules/data_models.py`. -/

/-- Tag mappings (`TeamworkTask.tags : Dict[str, str]`) are embedded
as partial maps from key to value. -/
def TagMap : Type := List Char → Option (List Char)

/-- Python truthiness of an optional string: `None` and `""` are
falsy. -/
def pyTruthy (o : Option (List Char)) : Bool :=
  match o with
  | some s => !s.isEmpty
  | none => false

/-- Python `a or b` for an optional string `a` and a string `b`. -/
def pyOrOpt (a : Option (List Char)) (b : List Char) : List Char :=
  if pyTruthy a then a.getD [] else b

/-- Python `dict.get(k, dflt)`. -/
def dictGetD (tags : TagMap) (k dflt : List Char) : List Char := (tags k).getD dflt

def sonnetChars : List Char := "sonnet".toList

def opusChars : List Char := "opus".toList

def planChars : List Char := "plan".toList

def modelKey : List Char := "model".toList

def workflowKey : List Char := "workflow".toList

def worktreeKey : List Char := "worktree".toList

def prototypeKey : List Char := "prototype".toList

/-- Embedding of `TeamworkTask.get_preferred_model` (lines 313-316):
`model = self.model or self.tags.get("model", "sonnet")`, then return
it if it is `opus` or `sonnet`, else `sonnet`. -/
def get_preferred_model (model : Option (List Char)) (tags : TagMap) : List Char :=
  let m := pyOrOpt model (dictGetD tags modelKey sonnetChars)
  if m = opusChars ∨ m = sonnetChars then m else sonnetChars

/-- Embedding of `TeamworkTask.should_use_full_workflow`
(lines 318-324). -/
def should_use_full_workflow (workflow_type : Option (List Char)) (tags : TagMap)
    (task_prompt : Option (List Char)) : Bool :=
  decide (workflow_type = some planChars) || decide (tags workflowKey = some planChars) ||
    decide ((task_prompt.getD []).length > 500)

def eligibleStatuses : List (List Char) :=
  ["new".toList, "to do".toList, "review".toList]

/-- Embedding of `TeamworkTask.is_eligible_for_processing`
(lines 283-289): the status must be truthy, its lowercasing must be
one of the eligible statuses, and the execution trigger must be
`execute` or `continue`. -/
def is_eligible_for_processing (status : List Char) (trigger : Option (List Char)) : Bool :=
  (!status.isEmpty) && eligibleStatuses.contains (pyLower status) &&
    (decide (trigger = some executeChars) || decide (trigger = some continueChars))

/-- Embedding of `TeamworkTask.get_task_prompt_for_agent`
(lines 298-307). -/
def get_task_prompt_for_agent (trigger : Option (List Char))
    (task_prompt : Option (List Char)) (description : List Char) : List Char :=
  if trigger = some continueChars then
    (if pyTruthy task_prompt then task_prompt.getD [] else [])
  else
    pyStrip (pyReplaceAll executeChars (removeSimpleTags description))

/-! Configuration, from `TeamworkCronConfig` (lines 377-425). -/

def defaultStatusMapping : List (List Char × List Char) :=
  [("Not started".toList, "New".toList),
   ("In progress".toList, "In Progress".toList),
   ("Done".toList, "Complete".toList),
   ("HIL Review".toList, "Review".toList),
   ("Failed".toList, "Blocked".toList)]

/-- Embedding of `TeamworkCronConfig.map_status_to_teamwork`:
`self.status_mapping.get(system_status, system_status)`. -/
def map_status_to_teamwork (m : List (List Char × List Char)) (s : List Char) : List Char :=
  match m.find? (fun p => p.1 == s) with
  | some p => p.2
  | none => s

structure TeamworkCronConfigM where
  project_id : List Char
  max_concurrent_tasks : Nat
  dry_run : Bool
  status_mapping : List (List Char × List Char)

/-!
Worktree name generation.  `TeamworkTaskManager._generate_worktree_name`
(monolithic trigger, lines 286-296) sanitizes then truncates;
`make_worktree_name` in the split trigger (lines 84-91) truncates
then sanitizes.  The substitution `re.sub(r'[^a-z0-9]+', '-', name)`
replaces every maximal run of non-alphanumerics by one hyphen, which
equals mapping each such character to a hyphen and collapsing hyphen
runs (every hyphen after the map came from such a character).
-/

def isLowerAlnum (c : Char) : Bool :=
  ('a' ≤ c && c ≤ 'z') || ('0' ≤ c && c ≤ '9')

def collapseDashes : List Char → List Char
  | [] => []
  | [c] => [c]
  | c :: d :: r =>
    if c = '-' ∧ d = '-' then collapseDashes (d :: r) else c :: collapseDashes (d :: r)

def dashSub (s : List Char) : List Char :=
  collapseDashes (s.map (fun c => if isLowerAlnum c then c else '-'))

/-- Python `str.strip('-')`. -/
def stripDashes (s : List Char) : List Char :=
  ((s.dropWhile (fun c => c = '-')).reverse.dropWhile (fun c => c = '-')).reverse

/-- Embedding of `TeamworkTaskManager._generate_worktree_name`. -/
def generate_worktree_name (title : List Char) (hasProto : Bool) : List Char :=
  let name0 := stripDashes (dashSub (pyLower title))
  let name1 := if name0.length > 50 then name0.take 50 else name0
  (if hasProto then "proto-".toList else "feat-".toList) ++ name1

/-- Embedding of the split trigger `make_worktree_name`; the fresh id
used in the empty-name fallback is an oracle argument. -/
def make_worktree_name_split (desc : List Char) (hasProto : Bool) (freshId : List Char) :
    List Char :=
  let name := stripDashes (dashSub (pyLower (desc.take 50)))
  let pre := if hasProto then "proto".toList else "feat".toList
  if !name.isEmpty then pre ++ "-".toList ++ name
  else pre ++ "-task-".toList ++ freshId

/-! Delegation manager, from `adw_trigger_cron_teamwork_tasks.py`. -/

structure TWTask where
  task_id : List Char
  title : List Char
  status : List Char
  description : List Char
  tags : TagMap
  worktree : Option (List Char)
  model : Option (List Char)
  workflow_type : Option (List Char)
  prototype : Option (List Char)
  execution_trigger : Option (List Char)
  task_prompt : Option (List Char)

/-- Payload of a remote status update issued by the manager; the
timestamp comes from the wall clock, passed in as an oracle. -/
inductive UpdatePayload where
  | claimMeta (adw_id timestamp model worktree_name status : List Char)
  | errMeta (adw_id error timestamp : List Char)
deriving DecidableEq

structure RemoteUpdate where
  task_id : List Char
  teamwork_status : List Char
  payload : UpdatePayload
deriving DecidableEq

structure SpawnCall where
  script : List Char
  args : List (List Char)
deriving DecidableEq

/-- Oracle inputs for one `delegate_task` call: the two draws of
`generate_short_id`, the two timestamps, the result of the claim
update, and whether `subprocess.Popen` raises (with message).  The
result of the compensating update is ignored by the code, so it is
not an input. -/
structure DelegateInputs where
  id1 : List Char
  id2 : List Char
  tsClaim : List Char
  tsErr : List Char
  claimOk : Bool
  spawnErr : Option (List Char)

structure DelegateOutcome where
  ok : Bool
  adw_id : List Char
  active : List (List Char)
  updates : List RemoteUpdate
  spawned : List SpawnCall

/-- Python `set.add` on a duplicate-free list. -/
def setAdd (s : List (List Char)) (x : List Char) : List (List Char) :=
  if x ∈ s then s else x :: s

/-- Python `set.discard`. -/
def setDiscard (s : List (List Char)) (x : List Char) : List (List Char) :=
  s.filter (fun y => y != x)

def planImplementScript : List Char :=
  "./adws/adw_plan_implement_update_teamwork_task.py".toList

def buildScript : List Char := "./adws/adw_build_update_teamwork_task.py".toList

def inProgressChars : List Char := "In progress".toList

def failedChars : List Char := "Failed".toList

def doneChars : List Char := "Done".toList

/-- Workflow routing of `delegate_task` (lines 212-244): the
plan-implement script if the task has a truthy prototype or
`should_use_full_workflow()` holds, else the build script. -/
def select_workflow_script (prototype workflow_type : Option (List Char)) (tags : TagMap)
    (task_prompt : Option (List Char)) : List Char :=
  if pyTruthy prototype then planImplementScript
  else if should_use_full_workflow workflow_type tags task_prompt then planImplementScript
  else buildScript

/-- Embedding of `TeamworkTaskManager._determine_workflow`
(lines 277-284). -/
def determine_workflow_label (prototype workflow_type : Option (List Char)) (tags : TagMap)
    (task_prompt : Option (List Char)) : List Char :=
  if pyTruthy prototype then
    "plan-implement (".toList ++ prototype.getD [] ++ ")".toList
  else if should_use_full_workflow workflow_type tags task_prompt then
    "plan-implement".toList
  else "build".toList

def mkUpdate (cfg : TeamworkCronConfigM) (task_id system_status : List Char)
    (p : UpdatePayload) : RemoteUpdate :=
  { task_id := task_id,
    teamwork_status := map_status_to_teamwork cfg.status_mapping system_status,
    payload := p }

/-- Embedding of `TeamworkTaskManager.delegate_task` (lines 165-275).
The returned record collects, in order, the remote status updates
issued and the successfully spawned processes. -/
def delegate_task (cfg : TeamworkCronConfigM) (active : List (List Char)) (t : TWTask)
    (inp : DelegateInputs) : DelegateOutcome :=
  let adw_id := if inp.id1 ∈ active then inp.id2 else inp.id1
  let active1 := setAdd active adw_id
  let model := get_preferred_model t.model t.tags
  let worktree_name :=
    if pyTruthy t.worktree then t.worktree.getD []
    else if pyTruthy (t.tags worktreeKey) then (t.tags worktreeKey).getD []
    else generate_worktree_name t.title (pyTruthy t.prototype)
  let task_prompt := get_task_prompt_for_agent t.execution_trigger t.task_prompt t.description
  let claimUpd := mkUpdate cfg t.task_id inProgressChars
    (UpdatePayload.claimMeta adw_id inp.tsClaim model worktree_name inProgressChars)
  if ¬ inp.claimOk then
    { ok := false, adw_id := adw_id, active := setDiscard active1 adw_id,
      updates := [claimUpd], spawned := [] }
  else
    let script := select_workflow_script t.prototype t.workflow_type t.tags t.task_prompt
    let args :=
      if pyTruthy t.prototype then
        [adw_id, t.task_id, task_prompt, worktree_name, t.prototype.getD [], model,
         cfg.project_id]
      else if should_use_full_workflow t.workflow_type t.tags t.task_prompt then
        [adw_id, t.task_id, task_prompt, worktree_name, [], model, cfg.project_id]
      else
        [adw_id, t.task_id, task_prompt, worktree_name, model, cfg.project_id]
    if cfg.dry_run then
      { ok := true, adw_id := adw_id, active := active1, updates := [claimUpd], spawned := [] }
    else
      match inp.spawnErr with
      | none =>
        { ok := true, adw_id := adw_id, active := active1, updates := [claimUpd],
          spawned := [{ script := script, args := args }] }
      | some e =>
        { ok := false, adw_id := adw_id, active := setDiscard active1 adw_id,
          updates := [claimUpd,
            mkUpdate cfg t.task_id failedChars (UpdatePayload.errMeta adw_id e inp.tsErr)],
          spawned := [] }

structure CycleOutcome where
  processed : Nat
  updates : List RemoteUpdate
  spawned : List SpawnCall

/-- Sequential delegation loop of `run_once` (lines 311-316), with
per-task oracle inputs indexed by position. -/
def run_delegations (cfg : TeamworkCronConfigM) (env : Nat → DelegateInputs) :
    Nat → List (List Char) → List TWTask → CycleOutcome
  | _, _, [] => { processed := 0, updates := [], spawned := [] }
  | i, active, t :: ts =>
    let r := delegate_task cfg active t (env i)
    let rest := run_delegations cfg env (i + 1) r.active ts
    { processed := (if r.ok then 1 else 0) + rest.processed,
      updates := r.updates ++ rest.updates,
      spawned := r.spawned ++ rest.spawned }

/-- Embedding of `TeamworkTaskManager.run_once` (lines 298-319):
`fetched` is the task list the remote fetch returned (the code passes
`max_concurrent_tasks` as the fetch limit but does not truncate the
returned list); every eligible task is delegated. -/
def run_once_model (cfg : TeamworkCronConfigM) (active0 : List (List Char))
    (fetched : List TWTask) (env : Nat → DelegateInputs) : CycleOutcome :=
  run_delegations cfg env 0 active0
    (fetched.filter (fun t => is_eligible_for_processing t.status t.execution_trigger))

/-! Split-command polling cycle, from
`adw_trigger_cron_teamwork_tasks_split.py` `main` (lines 142-293). -/

/-- Attempt of `\{\{(\w+):\s*([^}]+)\}\}` at one position, returning
the two captured groups and the remaining input.  The second group
excludes the whitespace consumed by the greedy `\s*`; if the
brace-free run is all whitespace the engine backtracks one character
into the group. -/
def matchTagCapture : List Char → Option ((List Char × List Char) × List Char)
  | c1 :: c2 :: rest =>
    if c1 = '{' ∧ c2 = '{' then
      match rest.dropWhile isWordChar with
      | d :: r2 =>
        if d = ':' ∧ ¬(rest.takeWhile isWordChar).isEmpty then
          match r2.dropWhile (fun c => c != '}') with
          | e1 :: e2 :: r4 =>
            if e1 = '}' ∧ e2 = '}' ∧ ¬(r2.takeWhile (fun c => c != '}')).isEmpty then
              let v := r2.takeWhile (fun c => c != '}')
              let grp2 :=
                if (v.dropWhile isPyWs).isEmpty then v.drop (v.length - 1)
                else v.dropWhile isPyWs
              some ((rest.takeWhile isWordChar, grp2), r4)
            else none
          | _ => none
        else none
      | _ => none
    else none
  | _ => none

/-- Fuel-driven `re.findall` scan for the inline tag pattern. -/
def findTagsF : Nat → List Char → List (List Char × List Char)
  | 0, _ => []
  | Nat.succ n, [] => []
  | Nat.succ n, c :: r =>
    match matchTagCapture (c :: r) with
    | some (kv, rest) => kv :: findTagsF n rest
    | none => findTagsF n r

/-- Python dict assignment `d[k] = v` on an association list. -/
def upsertTag (d : List (List Char × List Char)) (k v : List Char) :
    List (List Char × List Char) :=
  if (d.find? (fun p => p.1 == k)).isSome then
    d.map (fun p => if p.1 == k then (k, v) else p)
  else d ++ [(k, v)]

/-- Embedding of `extract_inline_tags` (both keys and values are
stripped before insertion). -/
def extract_inline_tags (s : List Char) : List (List Char × List Char) :=
  (findTagsF s.length s).foldl (fun d kv => upsertTag d (pyStrip kv.1) (pyStrip kv.2)) []

/-- Python `dict.get(k)` on an association list. -/
def dictFind (d : List (List Char × List Char)) (k : List Char) : Option (List Char) :=
  (d.find? (fun p => p.1 == k)).map (fun p => p.2)

/-- Raw task as returned by `/list_teamwork_tasks`. -/
structure RawTask where
  id : List Char
  name : List Char
  description : List Char
  status : List Char

/-- Eligible-task record built by the split cycle (lines 220-229). -/
structure EligTask where
  task_id : List Char
  title : List Char
  description : List Char
  status : List Char
  tags : List (List Char × List Char)
  execution_trigger : List Char
  task_prompt : List Char

/-- Per-task filtering of the split cycle (lines 184-229): lowercase
the status, require it among the allowed statuses, require a trigger;
native tags are not fetched (the code merges an empty dict), so the
merged tags are the inline tags. -/
def split_process (t : RawTask) : Option EligTask :=
  let status := pyLower t.status
  if status ∈ eligibleStatuses then
    match detect_execution_trigger t.description with
    | some trig =>
      some { task_id := t.id, title := t.name, description := t.description,
             status := status, tags := extract_inline_tags t.description,
             execution_trigger := trig,
             task_prompt := extract_task_prompt t.description (some trig) }
    | none => none
  else none

def split_eligible (ts : List RawTask) : List EligTask := ts.filterMap split_process

/-- Oracles for the split cycle: adw ids, fallback worktree ids and
spawn results, indexed by delegation position. -/
structure SplitEnv where
  adwIds : Nat → List Char
  wtIds : Nat → List Char
  spawnOk : Nat → Bool

/-- Spawn command construction of the split cycle (lines 240-274). -/
def mkSplitCall (projectId : List Char) (env : SplitEnv) (i : Nat) (t : EligTask) :
    SpawnCall :=
  let adw_id := env.adwIds i
  let prototype := dictFind t.tags prototypeKey
  let hasProto := pyTruthy prototype
  let model := (dictFind t.tags modelKey).getD sonnetChars
  let worktree := make_worktree_name_split t.task_prompt hasProto (env.wtIds i)
  if hasProto then
    { script := planImplementScript,
      args := [adw_id, t.task_id, t.task_prompt, worktree, prototype.getD [],
               "--model".toList, model, "--project-id".toList, projectId] }
  else
    { script := buildScript,
      args := [adw_id, t.task_id, t.task_prompt, worktree,
               "--model".toList, model, "--project-id".toList, projectId] }

/-- Spawn loop of the split cycle over the chosen tasks. -/
def split_run (projectId : List Char) (env : SplitEnv) :
    Nat → List EligTask → (List SpawnCall × Nat)
  | _, [] => ([], 0)
  | i, t :: ts =>
    let c := mkSplitCall projectId env i t
    let rest := split_run projectId env (i + 1) ts
    (c :: rest.1, (if env.spawnOk i then 1 else 0) + rest.2)

structure SplitOutcome where
  calls : List SpawnCall
  processed : Nat
  updates : List RemoteUpdate

/-- Embedding of one polling cycle of the split monitor (lines
181-283): the eligible tasks are truncated to
`config.max_concurrent_tasks` before spawning
(`eligible_tasks[:config.max_concurrent_tasks]`).  The split monitor
issues no remote status updates during delegation (there is no claim
step in its cycle), hence `updates` is always empty. -/
def split_cycle (projectId : List Char) (maxTasks : Nat) (dryRun : Bool) (env : SplitEnv)
    (tasks : List RawTask) : SplitOutcome :=
  let chosen := (split_eligible tasks).take maxTasks
  if dryRun then { calls := [], processed := chosen.length, updates := [] }
  else
    let r := split_run projectId env 0 chosen
    { calls := r.1, processed := r.2, updates := [] }

/-! Workflow scripts, from `adw_build_update_teamwork_task.py` and
`adw_plan_implement_update_teamwork_task.py`. -/

/-- Oracle for `subprocess.run(["git", "rev-parse", "HEAD"], ...)`:
`none` models a raised exception, otherwise return code and stdout. -/
def gitCommitHash (git : Option (Int × List Char)) : Option (List Char) :=
  match git with
  | some (rc, out) => if rc = 0 then some ((pyStrip out).take 8) else none
  | none => none

/-- Payload of the single final `/update_teamwork_task` call
(`update_content` dict). -/
structure FinalUpdate where
  task_id : List Char
  status : List Char
  commit_hash : List Char
  error : List Char
  timestamp : List Char
  model : List Char
  workflow : List Char
  worktree_name : List Char
  prototype : List Char
  plan_path : List Char
  result : List Char
deriving DecidableEq

structure ScriptOutcome where
  updates : List FinalUpdate
  exitCode : Nat
deriving DecidableEq

/-- Oracles for the build script: result of the `/build` agent call
(`Except.error` models a raised exception), the git lookup, the
timestamp. -/
structure BuildEnv where
  buildResp : Except (List Char) (Bool × List Char)
  git : Option (Int × List Char)
  ts : List Char

/-- Embedding of `adw_build_update_teamwork_task.main`
(lines 40-150). -/
def build_main (adw_id task_id task_description worktree_name model : List Char)
    (env : BuildEnv) : ScriptOutcome :=
  let workflow_success : Bool :=
    match env.buildResp with
    | Except.ok (s, _) => s
    | Except.error _ => false
  let error_message : Option (List Char) :=
    match env.buildResp with
    | Except.ok (s, out) => if s then none else some ("Build failed: ".toList ++ out)
    | Except.error e => some ("Exception during build: ".toList ++ e)
  let commit_hash : Option (List Char) :=
    if workflow_success then gitCommitHash env.git else none
  let update_status := if workflow_success && pyTruthy commit_hash then doneChars
    else failedChars
  let buildOut :=
    match env.buildResp with
    | Except.ok (_, out) => out
    | Except.error _ => []
  let upd : FinalUpdate :=
    { task_id := task_id, status := update_status,
      commit_hash := commit_hash.getD [], error := error_message.getD [],
      timestamp := env.ts, model := model, workflow := "build-update".toList,
      worktree_name := worktree_name, prototype := [], plan_path := [],
      result := if workflow_success then buildOut else [] }
  { updates := [upd], exitCode := if workflow_success then 0 else 1 }

/-- Oracles for the plan-implement script: results of the planning
and implementation agent calls, the plan-file glob, the git lookup,
the timestamp. -/
structure PlanEnv where
  planResp : Except (List Char) (Bool × List Char)
  implResp : Except (List Char) (Bool × List Char)
  planPath : Option (List Char)
  git : Option (Int × List Char)
  ts : List Char

/-- Embedding of `adw_plan_implement_update_teamwork_task.main`
(lines 41-218).  A failed planning phase raises, so implementation
only runs after a successful plan; the commit lookup only runs after
a successful implementation. -/
def plan_main (adw_id task_id task_description worktree_name prototype model : List Char)
    (env : PlanEnv) : ScriptOutcome :=
  let planOk : Bool :=
    match env.planResp with
    | Except.ok (s, _) => s
    | Except.error _ => false
  let implOk : Bool :=
    match env.implResp with
    | Except.ok (s, _) => s
    | Except.error _ => false
  let workflow_success := planOk && implOk
  let error_message : Option (List Char) :=
    match env.planResp with
    | Except.error e => some ("Exception during workflow: ".toList ++ e)
    | Except.ok (s, out) =>
      if s = false then
        some ("Exception during workflow: Planning failed: ".toList ++ out)
      else
        match env.implResp with
        | Except.error e => some ("Exception during workflow: ".toList ++ e)
        | Except.ok (s2, out2) =>
          if s2 = false then
            some ("Exception during workflow: Implementation failed: ".toList ++ out2)
          else none
  let plan_path : Option (List Char) := if planOk then env.planPath else none
  let commit_hash : Option (List Char) :=
    if workflow_success then gitCommitHash env.git else none
  let update_status := if workflow_success && pyTruthy commit_hash then doneChars
    else failedChars
  let implOut :=
    match env.implResp with
    | Except.ok (_, out) => out
    | Except.error _ => []
  let upd : FinalUpdate :=
    { task_id := task_id, status := update_status,
      commit_hash := commit_hash.getD [], error := error_message.getD [],
      timestamp := env.ts, model := model, workflow := "plan-implement-update".toList,
      worktree_name := worktree_name, prototype := prototype,
      plan_path := plan_path.getD [],
      result := if workflow_success then implOut else [] }
  { updates := [upd], exitCode := if workflow_success then 0 else 1 }

/-! Basic facts about whitespace characters and scanning helpers. -/

theorem isPyWs_cases {c : Char} (h : isPyWs c = true) :
    c = ' ' ∨ c = '\t' ∨ c = '\n' ∨ c = '\r' ∨ c = '\x0b' ∨ c = '\x0c' := by
  simp only [isPyWs, Bool.or_eq_true, decide_eq_true_eq] at h
  tauto

theorem isPyWs_ne_special {c : Char} (h : isPyWs c = true) :
    c ≠ '{' ∧ c ≠ '}' ∧ c ≠ ':' ∧ c ≠ '-' := by
  rcases isPyWs_cases h with h | h | h | h | h | h <;> subst h <;> refine ⟨?_, ?_, ?_, ?_⟩ <;> decide

theorem lowerChar_ws {c : Char} (h : isPyWs c = true) : lowerChar c = c := by
  rcases isPyWs_cases h with h | h | h | h | h | h <;> subst h <;> decide

theorem not_isPyWs_e : isPyWs 'e' = false := by decide

theorem executeChars_map_lower : executeChars.map lowerChar = executeChars := by decide

theorem continueChars_map_lower : continueChars.map lowerChar = continueChars := by decide

theorem lowerChar_ws_not_mem_execute {c : Char} (h : isPyWs c = true) :
    lowerChar c ∉ executeChars := by
  rcases isPyWs_cases h with h | h | h | h | h | h <;> subst h <;> decide

/-! Generic dropWhile/takeWhile decomposition lemmas. -/

theorem dropWhile_append_cons {α : Type} {p : α → Bool} {l₁ l₂ : List α} {d : α}
    {r : List α} (h : l₁.dropWhile p = d :: r) :
    (l₁ ++ l₂).dropWhile p = d :: (r ++ l₂) := by
  induction l₁ with
  | nil => simp at h
  | cons a l ih =>
    by_cases hpa : p a = true
    · simp only [List.dropWhile_cons, hpa, if_true] at h
      simpa [List.dropWhile_cons, hpa] using ih h
    · simp only [List.dropWhile_cons, hpa, Bool.false_eq_true, if_false] at h
      obtain ⟨rfl, rfl⟩ : a = d ∧ l = r := by
        constructor <;> injection h
      simp [List.dropWhile_cons, hpa]

theorem takeWhile_append_cons {α : Type} {p : α → Bool} {l₁ l₂ : List α} {d : α}
    {r : List α} (h : l₁.dropWhile p = d :: r) :
    (l₁ ++ l₂).takeWhile p = l₁.takeWhile p := by
  induction l₁ with
  | nil => simp at h
  | cons a l ih =>
    by_cases hpa : p a = true
    · simp only [List.dropWhile_cons, hpa, if_true] at h
      simp [List.takeWhile_cons, hpa, ih h]
    · simp [List.takeWhile_cons, hpa]

theorem dropWhile_append_nil {α : Type} {p : α → Bool} {l₁ : List α} (l₂ : List α)
    (h : l₁.dropWhile p = []) :
    (l₁ ++ l₂).dropWhile p = l₂.dropWhile p := by
  induction l₁ with
  | nil => simp
  | cons a l ih =>
    by_cases hpa : p a = true
    · simp only [List.dropWhile_cons, hpa, if_true] at h
      simp [List.dropWhile_cons, hpa, ih h]
    · simp [List.dropWhile_cons, hpa] at h

theorem takeWhile_append_nil {α : Type} {p : α → Bool} {l₁ : List α} (l₂ : List α)
    (h : l₁.dropWhile p = []) :
    (l₁ ++ l₂).takeWhile p = l₁ ++ l₂.takeWhile p := by
  induction l₁ with
  | nil => simp
  | cons a l ih =>
    by_cases hpa : p a = true
    · simp only [List.dropWhile_cons, hpa, if_true] at h
      simp [List.takeWhile_cons, hpa, ih h]
    · simp [List.dropWhile_cons, hpa] at h

theorem dropWhile_nil_of_all {α : Type} {p : α → Bool} {l : List α}
    (h : ∀ c ∈ l, p c = true) : l.dropWhile p = [] := by
  induction l with
  | nil => simp
  | cons a l ih =>
    have := h a (by simp)
    simp only [List.dropWhile_cons, this, if_true]
    exact ih (fun c hc => h c (by simp [hc]))

theorem dropWhile_head_false {α : Type} {p : α → Bool} {l : List α} {d : α}
    {r : List α} (h : l.dropWhile p = d :: r) : p d = false := by
  induction l with
  | nil => simp at h
  | cons a l ih =>
    by_cases hpa : p a = true
    · simp only [List.dropWhile_cons, hpa, if_true] at h
      exact ih h
    · simp only [List.dropWhile_cons, hpa, Bool.false_eq_true, if_false] at h
      have : a = d := by injection h
      subst this
      simpa using hpa

theorem mem_of_mem_dropWhile {α : Type} {p : α → Bool} {l : List α} {c : α}
    (h : c ∈ l.dropWhile p) : c ∈ l :=
  (List.dropWhile_sublist p).subset h

theorem mem_of_mem_takeWhile {α : Type} {p : α → Bool} {l : List α} {c : α}
    (h : c ∈ l.takeWhile p) : c ∈ l :=
  (List.takeWhile_sublist p).subset h

theorem dropWhile_idem {α : Type} {p : α → Bool} (l : List α) :
    (l.dropWhile p).dropWhile p = l.dropWhile p := by
  rcases hd : l.dropWhile p with _ | ⟨d, r⟩
  · simp
  · have := dropWhile_head_false hd
    simp [List.dropWhile_cons, this]

/-! Facts about `ciStrip`, `ciHasPat` and `hasInfixL`. -/

theorem ciStrip_nil_left (s : List Char) : ciStrip [] s = some s := rfl

theorem ciStrip_append {pat s r : List Char} (t : List Char)
    (h : ciStrip pat s = some r) : ciStrip pat (s ++ t) = some (r ++ t) := by
  induction pat generalizing s r with
  | nil =>
    simp only [ciStrip_nil_left, Option.some.injEq] at h
    subst h
    rfl
  | cons p ps ih =>
    match s with
    | [] => simp [ciStrip] at h
    | c :: cs =>
      simp only [ciStrip] at h ⊢
      split at h
      · rename_i hl
        simpa [hl] using ih h
      · simp at h

theorem ciStrip_some_decomp {pat s r : List Char} (h : ciStrip pat s = some r) :
    ∃ m, s = m ++ r ∧ m.map lowerChar = pat.map lowerChar := by
  induction pat generalizing s r with
  | nil =>
    simp only [ciStrip_nil_left, Option.some.injEq] at h
    exact ⟨[], by simp [h]⟩
  | cons p ps ih =>
    match s with
    | [] => simp [ciStrip] at h
    | c :: cs =>
      simp only [ciStrip] at h
      split at h
      · rename_i hl
        obtain ⟨m, hm, hmap⟩ := ih h
        exact ⟨c :: m, by simp [hm], by simp [hmap, hl]⟩
      · simp at h

theorem ciStrip_of_map {pat l : List Char} (t : List Char)
    (h : l.map lowerChar = pat.map lowerChar) : ciStrip pat (l ++ t) = some t := by
  induction pat generalizing l with
  | nil =>
    have : l = [] := by simpa using h
    subst this
    rfl
  | cons p ps ih =>
    match l with
    | [] => simp at h
    | c :: cs =>
      simp only [List.map_cons, List.cons.injEq] at h
      simp only [List.cons_append, ciStrip, h.1, if_pos rfl]
      exact ih h.2

theorem ciStrip_map_length {pat s r : List Char} (h : ciStrip pat s = some r) :
    s.length = pat.length + r.length := by
  obtain ⟨m, hm, hmap⟩ := ciStrip_some_decomp h
  have := congrArg List.length hmap
  simp at this
  subst hm
  simp only [List.length_append]
  omega

theorem ciHasPat_of_isSome {pat s : List Char} (h : (ciStrip pat s).isSome = true) :
    ciHasPat pat s = true := by
  match s with
  | [] => simp [ciHasPat, h]
  | c :: r => simp [ciHasPat, h]

theorem ciHasPat_append_right {pat s : List Char} (t : List Char)
    (h : ciHasPat pat s = true) : ciHasPat pat (s ++ t) = true := by
  induction s with
  | nil =>
    simp only [ciHasPat] at h
    split at h
    · rename_i hs
      rw [Option.isSome_iff_exists] at hs
      obtain ⟨r, hr⟩ := hs
      have h2 := ciStrip_append t hr
      simp only [List.nil_append] at h2
      exact ciHasPat_of_isSome (by simp [h2])
    · simp at h
  | cons c r ih =>
    simp only [ciHasPat] at h
    split at h
    · rename_i hs
      rw [Option.isSome_iff_exists] at hs
      obtain ⟨q, hq⟩ := hs
      have := ciStrip_append t hq
      exact ciHasPat_of_isSome (by simp [List.cons_append] at this ⊢; simp [this])
    · rw [List.cons_append]
      rw [ciHasPat]
      rw [ih h]
      simp

theorem ciHasPat_append_left {pat t : List Char} (s : List Char)
    (h : ciHasPat pat t = true) : ciHasPat pat (s ++ t) = true := by
  induction s with
  | nil => simpa using h
  | cons c r ih =>
    rw [List.cons_append, ciHasPat, ih]
    simp

theorem ciHasPat_infix {pat m : List Char} (a b : List Char)
    (h : ciHasPat pat m = true) : ciHasPat pat (a ++ m ++ b) = true := by
  rw [List.append_assoc]
  exact ciHasPat_append_left a (ciHasPat_append_right b h)

theorem hasInfixL_head_mem {p0 : Char} {pr s : List Char}
    (h : hasInfixL (p0 :: pr) s = true) : p0 ∈ s := by
  induction s with
  | nil =>
    rw [hasInfixL] at h
    simp [List.isPrefixOf] at h
  | cons c r ih =>
    rw [hasInfixL] at h
    split at h
    · rename_i hp
      have : p0 = c := by
        simp [List.isPrefixOf] at hp
        exact hp.1
      simp [this]
    · simp [ih h]

/-! Facts about `pyStrip`. -/

theorem pyStrip_split (s : List Char) :
    ∃ a b, s = a ++ pyStrip s ++ b ∧ (∀ c ∈ a, isPyWs c = true) ∧
      (∀ c ∈ b, isPyWs c = true) := by
  refine ⟨s.takeWhile isPyWs, ((s.dropWhile isPyWs).reverse.takeWhile isPyWs).reverse,
    ?_, ?_, ?_⟩
  · conv_lhs => rw [← List.takeWhile_append_dropWhile (p := isPyWs) (l := s)]
    rw [List.append_assoc]
    congr 1
    conv_lhs => rw [← List.reverse_reverse (s.dropWhile isPyWs)]
    conv_lhs =>
      rw [← List.takeWhile_append_dropWhile (p := isPyWs)
        (l := (s.dropWhile isPyWs).reverse)]
    rw [List.reverse_append]
    rfl
  · intro c hc
    exact List.mem_takeWhile_imp hc
  · intro c hc
    rw [List.mem_reverse] at hc
    exact List.mem_takeWhile_imp hc

theorem mem_of_mem_pyStrip {c : Char} {s : List Char} (h : c ∈ pyStrip s) : c ∈ s := by
  simp only [pyStrip, dropTrailWs] at h
  rw [List.mem_reverse] at h
  have h2 := mem_of_mem_dropWhile h
  rw [List.mem_reverse] at h2
  exact mem_of_mem_dropWhile h2

theorem pyStrip_all_ws {s : List Char} (h : ∀ c ∈ s, isPyWs c = true) :
    pyStrip s = [] := by
  simp [pyStrip, dropWhile_nil_of_all h, dropTrailWs]

theorem pyStrip_dropWhile (s : List Char) :
    pyStrip (s.dropWhile isPyWs) = pyStrip s := by
  simp [pyStrip, dropWhile_idem]

/-! Facts about trigger detection. -/

theorem detect_values (d : List Char) :
    detect_execution_trigger d = none ∨ detect_execution_trigger d = some executeChars ∨
      detect_execution_trigger d = some continueChars := by
  simp only [detect_execution_trigger]
  split
  · right; left; rfl
  · split
    · right; right; rfl
    · left; rfl

theorem execute_ne_continue : executeChars ≠ continueChars := by decide

/-! Facts about the `\s*execute\s*$` machinery. -/

theorem matchExecSuffix_nil : matchExecSuffix [] = false := by decide

theorem anyExec_of_split (u : List Char) {v : List Char}
    (hm : matchExecSuffix v = true) : anyExecSuffix (u ++ v) = true := by
  induction u with
  | nil =>
    match v, hm with
    | c :: r, hm => simp [anyExecSuffix, hm]
  | cons c r ih =>
    rw [List.cons_append, anyExecSuffix, ih]
    simp

theorem removeExec_split {s : List Char} (h : anyExecSuffix s = true) :
    ∃ front rest, s = front ++ rest ∧ matchExecSuffix rest = true ∧
      removeExecSuffix s = front := by
  induction s with
  | nil => simp [anyExecSuffix] at h
  | cons c r ih =>
    by_cases hm : matchExecSuffix (c :: r) = true
    · exact ⟨[], c :: r, by simp, hm, by simp [removeExecSuffix, hm]⟩
    · rw [anyExecSuffix] at h
      simp only [hm, Bool.false_or] at h
      obtain ⟨front, rest, h1, h2, h3⟩ := ih h
      refine ⟨c :: front, rest, by simp [h1], h2, ?_⟩
      simp [removeExecSuffix, hm, h3]

theorem matchExecSuffix_decomp {rest : List Char} (h : matchExecSuffix rest = true) :
    ∃ ws1 mid ws2, rest = ws1 ++ mid ++ ws2 ∧ (∀ c ∈ ws1, isPyWs c = true) ∧
      mid.map lowerChar = executeChars ∧ (∀ c ∈ ws2, isPyWs c = true) := by
  rw [matchExecSuffix] at h
  rcases hc : ciStrip executeChars (rest.dropWhile isPyWs) with _ | r
  · rw [hc] at h
    simp at h
  · rw [hc] at h
    obtain ⟨m, hm, hmap⟩ := ciStrip_some_decomp hc
    refine ⟨rest.takeWhile isPyWs, m, r, ?_, ?_, ?_, ?_⟩
    · rw [List.append_assoc, ← hm]
      exact (List.takeWhile_append_dropWhile (p := isPyWs) (l := rest)).symm
    · intro c hcm
      exact List.mem_takeWhile_imp hcm
    · rw [hmap, executeChars_map_lower]
    · intro c hcm
      simp only [List.all_eq_true] at h
      exact h c hcm

theorem matchExecSuffix_exec_ws {b : List Char} (hb : ∀ c ∈ b, isPyWs c = true) :
    matchExecSuffix (executeChars ++ b) = true := by
  have h1 : (executeChars ++ b).dropWhile isPyWs = executeChars ++ b := by
    have h0 : executeChars ++ b = 'e' :: ("xecute".toList ++ b) := rfl
    rw [h0, List.dropWhile_cons]
    simp only [not_isPyWs_e, Bool.false_eq_true, if_false]
  rw [matchExecSuffix, h1, ciStrip_of_map b rfl]
  simp only [List.all_eq_true]
  exact hb

/-! Facts about the inline-tag scanner. -/

theorem rTagsF_congr : ∀ (n : Nat) {m : Nat} {s : List Char},
    s.length ≤ n → s.length ≤ m → rTagsF n s = rTagsF m s := by
  intro n
  induction n with
  | zero =>
    intro m s hn hm
    have hs : s = [] := List.length_eq_zero.mp (Nat.le_zero.mp hn)
    subst hs
    cases m <;> rfl
  | succ n ih =>
    intro m s hn hm
    match s with
    | [] => cases m <;> rfl
    | c :: r =>
      match m, hm with
      | Nat.succ m', hm =>
        simp only [rTagsF]
        rcases hmt : matchTagAt (c :: r) with _ | rest
        · have h1 : r.length ≤ n := by simp at hn; omega
          have h2 : r.length ≤ m' := by simp at hm; omega
          exact congrArg (List.cons c) (ih h1 h2)
        · have hlen := matchTagAt_length hmt
          have h1 : rest.length ≤ n := by simp at hlen hn; omega
          have h2 : rest.length ≤ m' := by simp at hlen hm; omega
          exact ih h1 h2

theorem removeInlineTags_nil : removeInlineTags [] = [] := rfl

theorem removeInlineTags_cons_none {c : Char} {r : List Char}
    (h : matchTagAt (c :: r) = none) :
    removeInlineTags (c :: r) = c :: removeInlineTags r := by
  show rTagsF (r.length + 1) (c :: r) = c :: rTagsF r.length r
  simp only [rTagsF]
  rw [h]

theorem removeInlineTags_match {s rest : List Char} (h : matchTagAt s = some rest) :
    removeInlineTags s = removeInlineTags rest := by
  match s with
  | [] => simp [matchTagAt] at h
  | c :: r =>
    show rTagsF (r.length + 1) (c :: r) = rTagsF rest.length rest
    simp only [rTagsF]
    rw [h]
    have hlen := matchTagAt_length h
    exact rTagsF_congr r.length (by simp at hlen; omega) (le_refl _)

theorem matchTagAt_decomp {s r : List Char} (h : matchTagAt s = some r) :
    ∃ w v, s = '{' :: '{' :: (w ++ ':' :: (v ++ '}' :: '}' :: r)) ∧ w ≠ [] ∧
      (∀ c ∈ w, isWordChar c = true) ∧ v ≠ [] ∧ (∀ c ∈ v, (c != '}') = true) := by
  match s with
  | [] => simp [matchTagAt] at h
  | [c] => simp [matchTagAt] at h
  | c1 :: c2 :: rest =>
    simp only [matchTagAt] at h
    split at h
    · rename_i hbr
      obtain ⟨hb1, hb2⟩ := hbr
      subst hb1
      subst hb2
      split at h
      · rename_i d r2 hdw
        split at h
        · rename_i hcol
          obtain ⟨hd, hne⟩ := hcol
          subst hd
          split at h
          · rename_i e1 e2 r4 hval
            split at h
            · rename_i hcl
              obtain ⟨he1, he2, hvne⟩ := hcl
              subst he1
              subst he2
              have hr : r4 = r := by injection h
              subst hr
              have erest : rest = rest.takeWhile isWordChar ++ (':' :: r2) := by
                conv_lhs =>
                  rw [← List.takeWhile_append_dropWhile (p := isWordChar) (l := rest)]
                rw [hdw]
              have er2 : r2 = r2.takeWhile (fun c => c != '}') ++ ('}' :: '}' :: r4) := by
                conv_lhs =>
                  rw [← List.takeWhile_append_dropWhile (p := fun c => c != '}') (l := r2)]
                rw [hval]
              refine ⟨rest.takeWhile isWordChar, r2.takeWhile (fun c => c != '}'),
                ?_, ?_, ?_, ?_, ?_⟩
              · conv_lhs => rw [erest]
                conv_lhs => rw [er2]
              · intro hwe
                exact hne (by simp [hwe])
              · intro c hc
                exact List.mem_takeWhile_imp hc
              · intro hve
                exact hvne (by simp [hve])
              · intro c hc
                exact List.mem_takeWhile_imp (p := fun d => d != '}') hc
            · exact absurd h (by simp)
          · exact absurd h (by simp)
        · exact absurd h (by simp)
      · exact absurd h (by simp)
    · exact absurd h (by simp)

theorem matchTagAt_build {w v r : List Char} (hw : ∀ c ∈ w, isWordChar c = true)
    (hwne : w ≠ []) (hv : ∀ c ∈ v, (c != '}') = true) (hvne : v ≠ []) :
    matchTagAt ('{' :: '{' :: (w ++ ':' :: (v ++ '}' :: '}' :: r))) = some r := by
  have hdw : (w ++ ':' :: (v ++ '}' :: '}' :: r)).dropWhile isWordChar =
      ':' :: (v ++ '}' :: '}' :: r) := by
    rw [dropWhile_append_nil _ (dropWhile_nil_of_all hw), List.dropWhile_cons,
      if_neg (by decide)]
  have htw : (w ++ ':' :: (v ++ '}' :: '}' :: r)).takeWhile isWordChar = w := by
    rw [takeWhile_append_nil _ (dropWhile_nil_of_all hw), List.takeWhile_cons,
      if_neg (by decide)]
    simp
  have hdv : (v ++ '}' :: '}' :: r).dropWhile (fun c => c != '}') = '}' :: '}' :: r := by
    rw [dropWhile_append_nil _ (dropWhile_nil_of_all hv), List.dropWhile_cons,
      if_neg (by decide)]
  have htv : (v ++ '}' :: '}' :: r).takeWhile (fun c => c != '}') = v := by
    rw [takeWhile_append_nil _ (dropWhile_nil_of_all hv), List.takeWhile_cons,
      if_neg (by decide)]
    simp
  simp [matchTagAt, hdw, htw, hdv, htv, List.isEmpty_iff, hwne, hvne]

theorem matchTagAt_append {u r : List Char} (t : List Char) (h : matchTagAt u = some r) :
    matchTagAt (u ++ t) = some (r ++ t) := by
  obtain ⟨w, v, hu, hwne, hw, hvne, hv⟩ := matchTagAt_decomp h
  subst hu
  have heq : ('{' :: '{' :: (w ++ ':' :: (v ++ '}' :: '}' :: r))) ++ t =
      '{' :: '{' :: (w ++ ':' :: (v ++ '}' :: '}' :: (r ++ t))) := by
    simp [List.append_assoc]
  rw [heq]
  exact matchTagAt_build hw hwne hv hvne

theorem matchTagAt_none_append {u : List Char} (t : List Char)
    (ht : ∀ c ∈ t, c ≠ '{' ∧ c ≠ '}' ∧ c ≠ ':') (h : matchTagAt u = none) :
    matchTagAt (u ++ t) = none := by
  cases hmt : matchTagAt (u ++ t) with
  | none => rfl
  | some r =>
    exfalso
    obtain ⟨w, v, heq, hwne, hw, hvne, hv⟩ := matchTagAt_decomp hmt
    have heq2 : u ++ t = ('{' :: '{' :: (w ++ ':' :: (v ++ ['}']))) ++ ('}' :: r) := by
      rw [heq]
      simp [List.append_assoc]
    rcases List.append_eq_append_iff.mp heq2 with ⟨a, ha1, ha2⟩ | ⟨c, hc1, hc2⟩
    · have : '}' ∈ t := by
        rw [ha2]
        simp
      exact (ht _ this).2.1 rfl
    · match c, hc2 with
      | [], hc2 =>
        have hmem : '}' ∈ t := by
          have h3 : t = '}' :: r := by simpa using hc2.symm
          rw [h3]
          simp
        exact (ht _ hmem).2.1 rfl
      | e :: c2, hc2 =>
        have hcons : '}' :: r = e :: (c2 ++ t) := by simpa using hc2
        have he : '}' = e := by injection hcons
        subst he
        have hu : u = '{' :: '{' :: (w ++ ':' :: (v ++ '}' :: '}' :: c2)) := by
          rw [hc1]
          simp [List.append_assoc]
        rw [hu] at h
        rw [matchTagAt_build hw hwne hv hvne] at h
        simp at h

theorem matchTagAt_none_of_head {c : Char} (r : List Char) (hc : c ≠ '{') :
    matchTagAt (c :: r) = none := by
  match r with
  | [] => rfl
  | d :: rr =>
    simp only [matchTagAt]
    rw [if_neg]
    intro hh
    exact hc hh.1

theorem removeInlineTags_id_of_no_brace {s : List Char} (h : ∀ c ∈ s, c ≠ '{') :
    removeInlineTags s = s := by
  induction s with
  | nil => rfl
  | cons c r ih =>
    rw [removeInlineTags_cons_none (matchTagAt_none_of_head r (h c (by simp)))]
    rw [ih (fun d hd => h d (by simp [hd]))]

theorem removeTags_append_aux : ∀ (n : Nat) (u t : List Char), u.length ≤ n →
    (∀ c ∈ t, c ≠ '{' ∧ c ≠ '}' ∧ c ≠ ':') →
    removeInlineTags (u ++ t) = removeInlineTags u ++ t := by
  intro n
  induction n with
  | zero =>
    intro u t hu ht
    have hun : u = [] := List.length_eq_zero.mp (Nat.le_zero.mp hu)
    subst hun
    simpa using removeInlineTags_id_of_no_brace (fun c hc => (ht c hc).1)
  | succ n ih =>
    intro u t hu ht
    match u with
    | [] => simpa using removeInlineTags_id_of_no_brace (fun c hc => (ht c hc).1)
    | c :: r =>
      rcases hmt : matchTagAt (c :: r) with _ | rest
      · have hnone := matchTagAt_none_append t ht hmt
        rw [List.cons_append, removeInlineTags_cons_none (by simpa using hnone),
          removeInlineTags_cons_none hmt,
          ih r t (by simp at hu; omega) ht]
        simp
      · have happ := matchTagAt_append t hmt
        rw [removeInlineTags_match happ, removeInlineTags_match hmt]
        have hlen := matchTagAt_length hmt
        exact ih rest t (by simp at hlen hu; omega) ht

theorem removeInlineTags_append_safe {u t : List Char}
    (ht : ∀ c ∈ t, c ≠ '{' ∧ c ≠ '}' ∧ c ≠ ':') :
    removeInlineTags (u ++ t) = removeInlineTags u ++ t :=
  removeTags_append_aux u.length u t (le_refl _) ht

/-! Facts about the continue-trigger machinery. -/

theorem continueChars_cons : continueChars = 'c' :: "ontinue".toList := rfl

theorem lowerChar_c : lowerChar 'c' = 'c' := by decide

theorem matchContinueAt_nil : matchContinueAt [] = false := by decide

theorem all_of_dropWhile_nil {α : Type} {p : α → Bool} {l : List α}
    (h : l.dropWhile p = []) : ∀ c ∈ l, p c = true := by
  induction l with
  | nil => simp
  | cons a l ih =>
    by_cases hpa : p a = true
    · simp only [List.dropWhile_cons, hpa, if_true] at h
      intro c hc
      rcases List.mem_cons.mp hc with rfl | hc
      · exact hpa
      · exact ih h c hc
    · simp [List.dropWhile_cons, hpa] at h

theorem afterDashOk_of_mem {X : List Char} {c : Char} (hc : c ∈ X) (hn : c ≠ '\n') :
    afterDashOk X = true := by
  induction X with
  | nil => simp at hc
  | cons x r ih =>
    by_cases hx : x = '\n'
    · subst hx
      rcases List.mem_cons.mp hc with rfl | hc
      · exact absurd rfl hn
      · simp [afterDashOk, ih hc, show isPyWs '\n' = true from by decide]
    · simp [afterDashOk, bne_iff_ne, hx]

theorem dashTail_ws {w X : List Char} (hw : ∀ c ∈ w, isPyWs c = true) :
    dashTail (w ++ '-' :: X) = afterDashOk X := by
  induction w with
  | nil => simp [dashTail]
  | cons c r ih =>
    have hcw := hw c (by simp)
    have hcd : c ≠ '-' := (isPyWs_ne_special hcw).2.2.2
    rw [List.cons_append, dashTail]
    rw [if_neg hcd, if_pos hcw]
    exact ih (fun d hd => hw d (by simp [hd]))

theorem matchContinueAt_build {C w X : List Char} (hC : C.map lowerChar = continueChars)
    (hw : ∀ c ∈ w, isPyWs c = true) {c0 : Char} {x0 : List Char} (hX : X = c0 :: x0)
    (hc0 : c0 ≠ '\n' ∨ afterDashOk X = true) :
    matchContinueAt (C ++ (w ++ '-' :: X)) = true := by
  have hstrip : ciStrip continueChars (C ++ (w ++ '-' :: X)) = some (w ++ '-' :: X) :=
    ciStrip_of_map _ (by rw [hC, continueChars_map_lower])
  rw [matchContinueAt, hstrip]
  show dashTail (w ++ '-' :: X) = true
  rw [dashTail_ws hw]
  rcases hc0 with hc0 | hc0
  · subst hX
    exact afterDashOk_of_mem (by simp) hc0
  · exact hc0

theorem hasCT_of (p : List Char) {s : List Char} (h : matchContinueAt s = true) :
    hasContinueTrigger (p ++ s) = true := by
  induction p with
  | nil =>
    match s, h with
    | c :: r, h => simp [hasContinueTrigger, h]
    | [], h => rw [matchContinueAt_nil] at h; exact absurd h (by simp)
  | cons c r ih =>
    rw [List.cons_append, hasContinueTrigger, ih]
    simp

theorem ciStrip_continue_head_ne {h : Char} (rest : List Char)
    (hh : lowerChar h ≠ 'c') : ciStrip continueChars (h :: rest) = none := by
  rw [continueChars_cons, ciStrip, if_neg]
  rw [lowerChar_c]
  exact fun he => hh he.symm

theorem findCG_skip {p : List Char} (s : List Char)
    (hp : ∀ c ∈ p, lowerChar c ≠ 'c') :
    findContinueGroup (p ++ s) = findContinueGroup s := by
  induction p with
  | nil => simp
  | cons c r ih =>
    rw [List.cons_append, findContinueGroup,
      ciStrip_continue_head_ne _ (hp c (by simp))]
    exact ih (fun d hd => hp d (by simp [hd]))

/-- Group produced by `continue\s*-\s*(.+)` with DOTALL after the
hyphen, before the final strip. -/
def contGroup (X : List Char) : List Char :=
  if (X.dropWhile isPyWs).isEmpty then X.drop (X.length - 1) else X.dropWhile isPyWs

theorem dashGroup_cons (c : Char) (t : List Char) :
    dashGroup (c :: t) =
      if c = '-' then
        (match t with
         | [] => none
         | _ :: _ =>
           some (if (t.dropWhile isPyWs).isEmpty then t.drop (t.length - 1)
             else t.dropWhile isPyWs))
      else if isPyWs c then dashGroup t else none := rfl

theorem dashGroup_ws {w X : List Char} (hw : ∀ c ∈ w, isPyWs c = true) :
    dashGroup (w ++ '-' :: X) = dashGroup ('-' :: X) := by
  induction w with
  | nil => simp
  | cons c r ih =>
    have hcw := hw c (by simp)
    have hcd : c ≠ '-' := (isPyWs_ne_special hcw).2.2.2
    rw [List.cons_append, dashGroup_cons]
    rw [if_neg hcd, if_pos hcw]
    exact ih (fun d hd => hw d (by simp [hd]))

theorem dashGroup_dash {X : List Char} (hX : X ≠ []) :
    dashGroup ('-' :: X) = some (contGroup X) := by
  match X, hX with
  | c :: r, _ => rfl

theorem pyStrip_contGroup (X : List Char) : pyStrip (contGroup X) = pyStrip X := by
  by_cases h : (X.dropWhile isPyWs).isEmpty = true
  · rw [contGroup, if_pos h]
    have hall : ∀ c ∈ X, isPyWs c = true :=
      all_of_dropWhile_nil (List.isEmpty_iff.mp h)
    rw [pyStrip_all_ws hall, pyStrip_all_ws]
    intro c hc
    exact hall c (List.drop_subset _ _ hc)
  · rw [contGroup, if_neg h]
    exact pyStrip_dropWhile X

theorem findContinueGroup_cons (c : Char) (r : List Char) :
    findContinueGroup (c :: r) =
      match (match ciStrip continueChars (c :: r) with
             | some rest => dashGroup rest
             | none => none) with
      | some g => some g
      | none => findContinueGroup r := rfl

/-! Shared characterizations of `detect_execution_trigger` and
`extract_task_prompt` on the two trigger shapes. -/

theorem detect_exec {body : List Char}
    (h : executeChars.isSuffixOf (pyStrip body) = true) :
    detect_execution_trigger body = some executeChars := by
  rw [detect_execution_trigger, if_pos h]

theorem executeChars_safe : ∀ c ∈ executeChars, c ≠ '{' ∧ c ≠ '}' ∧ c ≠ ':' := by
  decide

/-- After the tag pass, the `\s*execute\s*$` substitution on a body
whose stripped form ends in `execute` removes a final case variant of
`execute` together with the whitespace around it, and the extracted
prompt is the stripped text before the removed region. -/
theorem extract_exec_split {body : List Char}
    (h : executeChars.isSuffixOf (pyStrip body) = true) :
    ∃ front ws1 mid ws2,
      removeInlineTags body = front ++ (ws1 ++ mid ++ ws2) ∧
      (∀ c ∈ ws1, isPyWs c = true) ∧ mid.map lowerChar = executeChars ∧
      (∀ c ∈ ws2, isPyWs c = true) ∧
      extract_task_prompt body (some executeChars) = pyStrip front := by
  have hsuf : executeChars <:+ pyStrip body := List.isSuffixOf_iff_suffix.mp h
  obtain ⟨u0, hu0⟩ := hsuf
  obtain ⟨a, b, hb, ha_ws, hb_ws⟩ := pyStrip_split body
  have hbody : body = (a ++ u0) ++ (executeChars ++ b) := by
    rw [hb, ← hu0]
    simp [List.append_assoc]
  have hsafe : ∀ c ∈ executeChars ++ b, c ≠ '{' ∧ c ≠ '}' ∧ c ≠ ':' := by
    intro c hc
    rcases List.mem_append.mp hc with hc | hc
    · exact executeChars_safe c hc
    · exact ⟨(isPyWs_ne_special (hb_ws c hc)).1, (isPyWs_ne_special (hb_ws c hc)).2.1,
        (isPyWs_ne_special (hb_ws c hc)).2.2.1⟩
  have hrm : removeInlineTags body = removeInlineTags (a ++ u0) ++ (executeChars ++ b) := by
    rw [hbody]
    exact removeInlineTags_append_safe hsafe
  have hany : anyExecSuffix (removeInlineTags body) = true := by
    rw [hrm]
    exact anyExec_of_split _ (matchExecSuffix_exec_ws hb_ws)
  obtain ⟨front, rest, h1, h2, h3⟩ := removeExec_split hany
  obtain ⟨ws1, mid, ws2, hr, hws1, hmid, hws2⟩ := matchExecSuffix_decomp h2
  refine ⟨front, ws1, mid, ws2, ?_, hws1, hmid, hws2, ?_⟩
  · rw [h1, hr]
  · simp only [extract_task_prompt, if_pos rfl]
    rw [h3]
    simp

theorem detect_continue_eq {p C w X : List Char}
    (hC : C.map lowerChar = continueChars)
    (hw : ∀ c ∈ w, isPyWs c = true)
    (hX : ∃ c ∈ X, c ≠ '\n')
    (hexec : executeChars.isSuffixOf (pyStrip (p ++ (C ++ (w ++ '-' :: X)))) = false) :
    detect_execution_trigger (p ++ (C ++ (w ++ '-' :: X))) = some continueChars := by
  obtain ⟨c, hcm, hcn⟩ := hX
  have hmc : matchContinueAt (C ++ (w ++ '-' :: X)) = true := by
    have hstrip : ciStrip continueChars (C ++ (w ++ '-' :: X)) = some (w ++ '-' :: X) :=
      ciStrip_of_map _ (by rw [hC, continueChars_map_lower])
    rw [matchContinueAt, hstrip]
    show dashTail (w ++ '-' :: X) = true
    rw [dashTail_ws hw]
    exact afterDashOk_of_mem hcm hcn
  rw [detect_execution_trigger, if_neg (by simp [hexec]), if_pos (hasCT_of p hmc)]

theorem extract_continue_eq {p C w X : List Char}
    (hp : ∀ c ∈ p, lowerChar c ≠ 'c')
    (hC : C.map lowerChar = continueChars)
    (hw : ∀ c ∈ w, isPyWs c = true)
    (hXne : X ≠ [])
    (hbrace : ∀ c ∈ p ++ (C ++ (w ++ '-' :: X)), c ≠ '{') :
    extract_task_prompt (p ++ (C ++ (w ++ '-' :: X))) (some continueChars) = pyStrip X := by
  have hCne : C ≠ [] := by
    intro hc
    rw [hc] at hC
    simp [continueChars_cons] at hC
  have hid : removeInlineTags (p ++ (C ++ (w ++ '-' :: X))) =
      p ++ (C ++ (w ++ '-' :: X)) := removeInlineTags_id_of_no_brace hbrace
  have hfind : findContinueGroup (p ++ (C ++ (w ++ '-' :: X))) = some (contGroup X) := by
    rw [findCG_skip _ hp]
    match C, hCne with
    | c0 :: C2, _ =>
      have hstrip : ciStrip continueChars (c0 :: (C2 ++ (w ++ '-' :: X))) =
          some (w ++ '-' :: X) := by
        have hm : List.map lowerChar (c0 :: C2) = List.map lowerChar continueChars := by
          rw [continueChars_map_lower]
          exact hC
        have := ciStrip_of_map (w ++ '-' :: X) hm
        simpa using this
      have hdash : dashGroup (w ++ '-' :: X) = some (contGroup X) := by
        rw [dashGroup_ws hw, dashGroup_dash hXne]
      rw [List.cons_append, findContinueGroup_cons, hstrip]
      simp [hdash]
  simp only [extract_task_prompt,
    if_neg (fun hh => execute_ne_continue (Option.some.inj hh).symm), if_pos rfl]
  rw [hid, hfind]
  exact pyStrip_contGroup X

/-! Concrete fixtures used by counterexamples and witnesses. -/

def emptyTags : TagMap := fun _ => none

def opusTags : TagMap := fun k => if k = modelKey then some opusChars else none

def protoTags : TagMap := fun k => if k = prototypeKey then some ("uv_script".toList) else none

def cfg0 : TeamworkCronConfigM :=
  { project_id := "805682".toList, max_concurrent_tasks := 3, dry_run := false,
    status_mapping := defaultStatusMapping }

def task0 : TWTask :=
  { task_id := "101".toList, title := "Fix".toList, status := "new".toList,
    description := "do it execute".toList, tags := emptyTags,
    worktree := some ("wt".toList), model := none, workflow_type := none,
    prototype := none, execution_trigger := some executeChars, task_prompt := none }

def inp0 : DelegateInputs :=
  { id1 := "aa".toList, id2 := "bb".toList, tsClaim := "t1".toList,
    tsErr := "t2".toList, claimOk := true, spawnErr := none }

theorem claimMeta_beq_errMeta {a b c d f x y z : List Char} :
    (UpdatePayload.claimMeta a b c d f == UpdatePayload.errMeta x y z) = false := by
  simp [beq_eq_false_iff_ne]

theorem delegate_adw_id (cfg : TeamworkCronConfigM) (active : List (List Char))
    (t : TWTask) (inp : DelegateInputs) :
    (delegate_task cfg active t inp).adw_id =
      if inp.id1 ∈ active then inp.id2 else inp.id1 := by
  by_cases hc : inp.claimOk = true
  · by_cases hd : cfg.dry_run = true
    · simp [delegate_task, hc, hd]
    · rcases hs : inp.spawnErr with _ | e
      · simp [delegate_task, hc, hd, hs]
      · simp [delegate_task, hc, hd, hs]
  · simp [delegate_task, hc]

/-- C1: for every task delegation in which the remote claim succeeds
but spawning the detached workflow process fails, `delegate_task`
issues exactly one compensating remote status update to the failed
mapping carrying the error in its payload, removes the dispatch
identifier from the in-flight set, returns failure, and spawns no
execution. -/
theorem C1_spawn_failure_rollback :
    ∀ (cfg : TeamworkCronConfigM) (active : List (List Char)) (t : TWTask)
      (inp : DelegateInputs) (e : List Char),
      cfg.dry_run = false → inp.claimOk = true → inp.spawnErr = some e →
      (delegate_task cfg active t inp).ok = false ∧
      (delegate_task cfg active t inp).spawned = [] ∧
      (delegate_task cfg active t inp).adw_id ∉ (delegate_task cfg active t inp).active ∧
      ((delegate_task cfg active t inp).updates.filter (fun u =>
        u.task_id == t.task_id &&
        u.teamwork_status == map_status_to_teamwork cfg.status_mapping failedChars &&
        u.payload == UpdatePayload.errMeta (delegate_task cfg active t inp).adw_id e
          inp.tsErr)).length = 1 ∧
      (delegate_task cfg active t inp).updates.length = 2 := by
  intro cfg active t inp e hdry hclaim hspawn
  simp only [delegate_task, hdry, hclaim, hspawn, not_true, Bool.false_eq_true, if_false]
  refine ⟨?_, ?_, ?_, ?_, ?_⟩ <;>
    simp [mkUpdate, setDiscard, setAdd, List.mem_filter, List.filter, beq_iff_eq,
      claimMeta_beq_errMeta]

/-- C3 counterexample: with in-flight set `{aa, bb}` and consecutive
draws `aa` then `bb`, the identifier recorded by `delegate_task` is
`bb`, which is already a member of the in-flight set; the code
regenerates only once and does not loop until unique. -/
theorem C3_counterexample :
    (delegate_task cfg0 ["aa".toList, "bb".toList] task0 inp0).adw_id = "bb".toList ∧
    "bb".toList ∈ ["aa".toList, "bb".toList] := by
  constructor
  · rw [delegate_adw_id]
    decide
  · decide

/-- C3 amended: on collision with the in-flight set one fresh
identifier is drawn and then used without rechecking; in particular
the recorded identifier is guaranteed fresh only when the first draw
does not collide. -/
theorem C3_single_regeneration :
    ∀ (cfg : TeamworkCronConfigM) (active : List (List Char)) (t : TWTask)
      (inp : DelegateInputs),
      (inp.id1 ∉ active →
        (delegate_task cfg active t inp).adw_id = inp.id1 ∧
        (delegate_task cfg active t inp).adw_id ∉ active) ∧
      (inp.id1 ∈ active → (delegate_task cfg active t inp).adw_id = inp.id2) := by
  intro cfg active t inp
  constructor
  · intro h
    rw [delegate_adw_id, if_neg h]
    exact ⟨rfl, h⟩
  · intro h
    rw [delegate_adw_id, if_pos h]

theorem C3_single_regeneration_witness :
    (delegate_task cfg0 [] task0 inp0).adw_id = "aa".toList ∧
    (delegate_task cfg0 [] task0 inp0).adw_id ∉ ([] : List (List Char)) :=
  (C3_single_regeneration cfg0 [] task0 inp0).1 (by decide)

/-- C4: a task is eligible for processing exactly when its status,
compared case-insensitively, lies in the default allowed set
`{new, to do, review}` and the trigger detected from its body is not
`none`; in particular status `done` is never eligible and status
`new` without a trigger is not eligible. -/
theorem C4_is_eligible_iff :
    (∀ status description : List Char,
      is_eligible_for_processing status (detect_execution_trigger description) = true ↔
        (pyLower status ∈ eligibleStatuses ∧ detect_execution_trigger description ≠ none)) ∧
    (∀ trigger : Option (List Char),
      is_eligible_for_processing ("done".toList) trigger = false) ∧
    is_eligible_for_processing ("new".toList) none = false := by
  refine ⟨?_, ?_, by decide⟩
  · intro status description
    simp only [is_eligible_for_processing, Bool.and_eq_true, Bool.or_eq_true,
      decide_eq_true_eq, Bool.not_eq_true', List.isEmpty_eq_false, List.contains,
      List.elem_iff]
    constructor
    · rintro ⟨⟨hne, hmem⟩, htrig⟩
      refine ⟨hmem, ?_⟩
      rcases htrig with h | h <;> simp [h]
    · rintro ⟨hmem, htrig⟩
      refine ⟨⟨?_, hmem⟩, ?_⟩
      · intro hnil
        subst hnil
        exact absurd hmem (by decide)
      · rcases detect_values description with h | h | h
        · exact absurd h htrig
        · left; exact h
        · right; exact h
  · intro trigger
    have h : pyLower ['d', 'o', 'n', 'e'] ∉ eligibleStatuses := by decide
    simp [is_eligible_for_processing, List.contains, List.elem_iff, h]

/-- C9 counterexample: with an explicit model `haiku` (set but
invalid) and `tags[model] = opus`, `get_preferred_model` returns
`sonnet`, not the valid tag value `opus` the claim requires. -/
theorem C9_counterexample :
    opusTags modelKey = some opusChars ∧
    get_preferred_model (some ("haiku".toList)) opusTags = sonnetChars ∧
    sonnetChars ≠ opusChars := by
  refine ⟨by decide, by decide, by decide⟩

/-- C9 amended: the explicit model wins when set (nonempty) and
valid; when set but invalid the result is `sonnet` without consulting
the tags; when unset, the tag value wins if valid, else `sonnet`.
The function is total, so no input can raise an error. -/
theorem C9_select_model :
    ∀ (tags : TagMap) (m : List Char),
      (m ≠ [] → (m = opusChars ∨ m = sonnetChars) →
        get_preferred_model (some m) tags = m) ∧
      (m ≠ [] → ¬(m = opusChars ∨ m = sonnetChars) →
        get_preferred_model (some m) tags = sonnetChars) ∧
      (∀ v, tags modelKey = some v → (v = opusChars ∨ v = sonnetChars) →
        get_preferred_model none tags = v) ∧
      (tags modelKey = none → get_preferred_model none tags = sonnetChars) ∧
      (∀ v, tags modelKey = some v → ¬(v = opusChars ∨ v = sonnetChars) →
        get_preferred_model none tags = sonnetChars) := by
  intro tags m
  refine ⟨?_, ?_, ?_, ?_, ?_⟩
  · intro h1 h2
    simp [get_preferred_model, pyOrOpt, pyTruthy, List.isEmpty_iff, h1, h2]
  · intro h1 h2
    simp [get_preferred_model, pyOrOpt, pyTruthy, List.isEmpty_iff, h1, h2]
  · intro v hv hval
    simp [get_preferred_model, pyOrOpt, pyTruthy, dictGetD, hv, hval]
  · intro hv
    simp [get_preferred_model, pyOrOpt, pyTruthy, dictGetD, hv]
  · intro v hv hval
    simp [get_preferred_model, pyOrOpt, pyTruthy, dictGetD, hv, hval]

theorem C9_select_model_witness :
    get_preferred_model (some opusChars) emptyTags = opusChars ∧
    get_preferred_model none opusTags = opusChars ∧
    get_preferred_model none emptyTags = sonnetChars :=
  ⟨(C9_select_model emptyTags opusChars).1 (by decide) (by decide),
   (C9_select_model opusTags opusChars).2.2.1 opusChars (by decide) (by decide),
   (C9_select_model emptyTags opusChars).2.2.2.1 (by decide)⟩

def inpFail : DelegateInputs :=
  { id1 := "aa".toList, id2 := "bb".toList, tsClaim := "t1".toList,
    tsErr := "t2".toList, claimOk := true, spawnErr := some ("boom".toList) }

theorem C1_spawn_failure_rollback_witness :
    (delegate_task cfg0 [] task0 inpFail).ok = false ∧
    (delegate_task cfg0 [] task0 inpFail).spawned = [] ∧
    (delegate_task cfg0 [] task0 inpFail).adw_id ∉
      (delegate_task cfg0 [] task0 inpFail).active ∧
    ((delegate_task cfg0 [] task0 inpFail).updates.filter (fun u =>
      u.task_id == task0.task_id &&
      u.teamwork_status == map_status_to_teamwork cfg0.status_mapping failedChars &&
      u.payload == UpdatePayload.errMeta (delegate_task cfg0 [] task0 inpFail).adw_id
        ("boom".toList) inpFail.tsErr)).length = 1 ∧
    (delegate_task cfg0 [] task0 inpFail).updates.length = 2 :=
  C1_spawn_failure_rollback cfg0 [] task0 inpFail ("boom".toList) rfl rfl rfl

set_option maxRecDepth 4096 in
/-- C8: the routing selects the plan-implement workflow exactly when
the prototype tag is set (truthy), the workflow tag equals `plan`, or
the task prompt exceeds 500 characters; otherwise the build workflow.
The three spec examples are included. -/
theorem C8_select_workflow :
    (∀ (tags : TagMap) (task_prompt : Option (List Char)),
      select_workflow_script (tags prototypeKey) (tags workflowKey) tags task_prompt =
          planImplementScript ↔
        (pyTruthy (tags prototypeKey) = true ∨ tags workflowKey = some planChars ∨
          (task_prompt.getD []).length > 500)) ∧
    select_workflow_script (emptyTags prototypeKey) (emptyTags workflowKey) emptyTags
        (some (List.replicate 501 'a')) = planImplementScript ∧
    select_workflow_script (emptyTags prototypeKey) (emptyTags workflowKey) emptyTags
        (some (List.replicate 10 'a')) = buildScript ∧
    select_workflow_script (protoTags prototypeKey) (protoTags workflowKey) protoTags
        (some ['a']) = planImplementScript := by
  refine ⟨?_, ?_, ?_, ?_⟩
  · intro tags task_prompt
    by_cases hp : pyTruthy (tags prototypeKey) = true
    · simp [select_workflow_script, hp]
    · by_cases hs : should_use_full_workflow (tags workflowKey) tags task_prompt = true
      · rw [select_workflow_script, if_neg hp, if_pos hs]
        simp only [true_iff, iff_true_intro rfl]
        simp only [should_use_full_workflow, Bool.or_eq_true, decide_eq_true_eq] at hs
        tauto
      · rw [select_workflow_script, if_neg hp, if_neg hs]
        constructor
        · intro heq
          exact absurd heq (by decide)
        · rintro (h | h | h)
          · exact absurd h hp
          · exact absurd (show should_use_full_workflow (tags workflowKey) tags
              task_prompt = true by simp [should_use_full_workflow, h]) hs
          · exact absurd (show should_use_full_workflow (tags workflowKey) tags
              task_prompt = true by simp [should_use_full_workflow, h]) hs
  · decide
  · decide
  · decide

/-- Success of the `/build` phase, exactly the `workflow_success`
flag of the build script. -/
def buildSuccessB (env : BuildEnv) : Bool :=
  match env.buildResp with
  | Except.ok (s, _) => s
  | Except.error _ => false

/-- Joint success of the planning and implementation phases, exactly
the `workflow_success` flag of the plan-implement script. -/
def planSuccessB (env : PlanEnv) : Bool :=
  (match env.planResp with
   | Except.ok (s, _) => s
   | Except.error _ => false) &&
  (match env.implResp with
   | Except.ok (s, _) => s
   | Except.error _ => false)

/-- C10: each workflow script sends exactly one final status update;
it carries `Done` exactly when the workflow command(s) succeeded and
a (truthy) commit hash was retrieved; successful commands with a
failed commit lookup are reported `Failed` while the process exits
with code 0. -/
theorem C10_final_status :
    (∀ (adw_id task_id task_description worktree_name model : List Char) (env : BuildEnv),
      (build_main adw_id task_id task_description worktree_name model env).updates.length
          = 1 ∧
      ((build_main adw_id task_id task_description worktree_name model
          env).updates.map FinalUpdate.status = [doneChars] ↔
        buildSuccessB env = true ∧ pyTruthy (gitCommitHash env.git) = true) ∧
      (buildSuccessB env = true → pyTruthy (gitCommitHash env.git) = false →
        (build_main adw_id task_id task_description worktree_name model
          env).updates.map FinalUpdate.status = [failedChars] ∧
        (build_main adw_id task_id task_description worktree_name model
          env).exitCode = 0)) ∧
    (∀ (adw_id task_id task_description worktree_name prototype model : List Char)
        (env : PlanEnv),
      (plan_main adw_id task_id task_description worktree_name prototype model
          env).updates.length = 1 ∧
      ((plan_main adw_id task_id task_description worktree_name prototype model
          env).updates.map FinalUpdate.status = [doneChars] ↔
        planSuccessB env = true ∧ pyTruthy (gitCommitHash env.git) = true) ∧
      (planSuccessB env = true → pyTruthy (gitCommitHash env.git) = false →
        (plan_main adw_id task_id task_description worktree_name prototype model
          env).updates.map FinalUpdate.status = [failedChars] ∧
        (plan_main adw_id task_id task_description worktree_name prototype model
          env).exitCode = 0)) := by
  constructor
  · intro adw_id task_id task_description worktree_name model env
    rcases henv : env.buildResp with e | ⟨s, out⟩
    · refine ⟨by simp [build_main], ?_, ?_⟩
      · simp [build_main, buildSuccessB, henv, show failedChars ≠ doneChars from by decide]
      · intro hok
        rw [buildSuccessB, henv] at hok
        exact absurd hok (by simp)
    · cases s
      · refine ⟨by simp [build_main], ?_, ?_⟩
        · simp [build_main, buildSuccessB, henv,
            show failedChars ≠ doneChars from by decide]
        · intro hok
          rw [buildSuccessB, henv] at hok
          exact absurd hok (by simp)
      · by_cases hcommit : pyTruthy (gitCommitHash env.git) = true
        · refine ⟨by simp [build_main], ?_, ?_⟩
          · simp [build_main, buildSuccessB, henv, hcommit]
          · intro _ hfc
            rw [hcommit] at hfc
            exact absurd hfc (by simp)
        · refine ⟨by simp [build_main], ?_, ?_⟩
          · simp [build_main, buildSuccessB, henv, hcommit,
              show failedChars ≠ doneChars from by decide]
          · intro _ _
            constructor
            · simp [build_main, henv, hcommit]
            · simp [build_main, henv]
  · intro adw_id task_id task_description worktree_name prototype model env
    rcases hplan : env.planResp with e | ⟨s, out⟩
    · refine ⟨by simp [plan_main], ?_, ?_⟩
      · simp [plan_main, planSuccessB, hplan,
          show failedChars ≠ doneChars from by decide]
      · intro hok
        rw [planSuccessB, hplan] at hok
        exact absurd hok (by simp)
    · cases s
      · refine ⟨by simp [plan_main], ?_, ?_⟩
        · simp [plan_main, planSuccessB, hplan,
            show failedChars ≠ doneChars from by decide]
        · intro hok
          rw [planSuccessB, hplan] at hok
          exact absurd hok (by simp)
      · rcases himpl : env.implResp with e2 | ⟨s2, out2⟩
        · refine ⟨by simp [plan_main], ?_, ?_⟩
          · simp [plan_main, planSuccessB, hplan, himpl,
              show failedChars ≠ doneChars from by decide]
          · intro hok
            rw [planSuccessB, hplan, himpl] at hok
            exact absurd hok (by simp)
        · cases s2
          · refine ⟨by simp [plan_main], ?_, ?_⟩
            · simp [plan_main, planSuccessB, hplan, himpl,
                show failedChars ≠ doneChars from by decide]
            · intro hok
              rw [planSuccessB, hplan, himpl] at hok
              exact absurd hok (by simp)
          · by_cases hcommit : pyTruthy (gitCommitHash env.git) = true
            · refine ⟨by simp [plan_main], ?_, ?_⟩
              · simp [plan_main, planSuccessB, hplan, himpl, hcommit]
              · intro _ hfc
                rw [hcommit] at hfc
                exact absurd hfc (by simp)
            · refine ⟨by simp [plan_main], ?_, ?_⟩
              · simp [plan_main, planSuccessB, hplan, himpl, hcommit,
                  show failedChars ≠ doneChars from by decide]
              · intro _ _
                constructor
                · simp [plan_main, hplan, himpl, hcommit]
                · simp [plan_main, hplan, himpl]

def envBuildNoGit : BuildEnv :=
  { buildResp := Except.ok (true, "built".toList), git := none, ts := "t".toList }

theorem C10_final_status_witness :
    (build_main ("aa".toList) ("101".toList) ("do".toList) ("wt".toList)
        sonnetChars envBuildNoGit).updates.map FinalUpdate.status = [failedChars] ∧
    (build_main ("aa".toList) ("101".toList) ("do".toList) ("wt".toList)
        sonnetChars envBuildNoGit).exitCode = 0 :=
  ((C10_final_status.1 ("aa".toList) ("101".toList) ("do".toList) ("wt".toList)
    sonnetChars envBuildNoGit).2.2 (by decide) (by decide))

def mkTaskC2 (n : List Char) : TWTask :=
  { task_id := n, title := "T".toList, status := "new".toList,
    description := "a execute".toList, tags := emptyTags,
    worktree := some ("wt".toList), model := none, workflow_type := none,
    prototype := none, execution_trigger := some executeChars, task_prompt := none }

def tasks5 : List TWTask :=
  [mkTaskC2 ("1".toList), mkTaskC2 ("2".toList), mkTaskC2 ("3".toList),
   mkTaskC2 ("4".toList), mkTaskC2 ("5".toList)]

def env5 : Nat → DelegateInputs := fun i =>
  { id1 := List.replicate (i + 1) 'a', id2 := List.replicate (i + 1) 'b',
    tsClaim := "t1".toList, tsErr := "t2".toList, claimOk := true, spawnErr := none }

/-- C2 counterexample: the monolithic `run_once` passes the
concurrency limit only as the remote fetch argument and does not
truncate the returned list; when the fetch returns five eligible
tasks with `max_concurrent_tasks = 3`, all five are claimed and
spawned in the cycle. -/
theorem C2_counterexample :
    cfg0.max_concurrent_tasks = 3 ∧
    (run_once_model cfg0 [] tasks5 env5).processed = 5 ∧
    (run_once_model cfg0 [] tasks5 env5).spawned.length = 5 ∧
    ¬(5 ≤ 3) := by
  refine ⟨rfl, by decide, by decide, by decide⟩

theorem mkSplitCall_taskid (pid : List Char) (env : SplitEnv) (i : Nat) (t : EligTask) :
    (mkSplitCall pid env i t).args.get? 1 = some t.task_id := by
  by_cases h : pyTruthy (dictFind t.tags prototypeKey) = true <;>
    simp [mkSplitCall, h]

theorem split_run_spec (pid : List Char) (env : SplitEnv) :
    ∀ (l : List EligTask) (i : Nat),
      (split_run pid env i l).1.length = l.length ∧
      (split_run pid env i l).1.map (fun c => c.args.get? 1) =
        l.map (fun t => some t.task_id) ∧
      ((∀ j, env.spawnOk j = true) → (split_run pid env i l).2 = l.length) := by
  intro l
  induction l with
  | nil =>
    intro i
    simp [split_run]
  | cons t ts ih =>
    intro i
    obtain ⟨h1, h2, h3⟩ := ih (i + 1)
    refine ⟨?_, ?_, ?_⟩
    · simp [split_run, h1]
    · show ((mkSplitCall pid env i t) :: (split_run pid env (i + 1) ts).1).map
        (fun c => c.args.get? 1) = _
      rw [List.map_cons, List.map_cons, mkSplitCall_taskid, h2]
    · intro hok
      show (if env.spawnOk i = true then 1 else 0) +
        (split_run pid env (i + 1) ts).2 = ts.length + 1
      rw [hok i, h3 hok, if_pos rfl]
      omega

/-- C2 amended: the split-command monitor truncates the eligible list
to `max_concurrent_tasks` before spawning, so at most `N` tasks are
delegated per cycle (exactly `min N |eligible|`), the spawned calls
are exactly the first `min N |eligible|` eligible tasks, and no
status update is issued in the cycle at all (in particular none for
the deferred tasks).  The monolithic `run_once` relies on the remote
fetch honoring the limit instead (see the counterexample). -/
theorem C2_concurrency_ceiling :
    ∀ (pid : List Char) (maxTasks : Nat) (env : SplitEnv) (tasks : List RawTask),
      (split_cycle pid maxTasks false env tasks).calls.length =
        min maxTasks (split_eligible tasks).length ∧
      (split_cycle pid maxTasks false env tasks).calls.map (fun c => c.args.get? 1) =
        ((split_eligible tasks).take maxTasks).map (fun t => some t.task_id) ∧
      (split_cycle pid maxTasks false env tasks).updates = [] ∧
      ((∀ i, env.spawnOk i = true) →
        (split_cycle pid maxTasks false env tasks).processed =
          min maxTasks (split_eligible tasks).length) := by
  intro pid maxTasks env tasks
  obtain ⟨h1, h2, h3⟩ := split_run_spec pid env ((split_eligible tasks).take maxTasks) 0
  refine ⟨?_, ?_, rfl, ?_⟩
  · show (split_run pid env 0 ((split_eligible tasks).take maxTasks)).1.length = _
    rw [h1, List.length_take]
  · exact h2
  · intro hok
    show (split_run pid env 0 ((split_eligible tasks).take maxTasks)).2 = _
    rw [h3 hok, List.length_take]

def rawC2 (n : List Char) : RawTask :=
  { id := n, name := "T".toList, description := "fix it execute".toList,
    status := "New".toList }

def tasks5raw : List RawTask :=
  [rawC2 ("1".toList), rawC2 ("2".toList), rawC2 ("3".toList), rawC2 ("4".toList),
   rawC2 ("5".toList)]

def envS : SplitEnv :=
  { adwIds := fun _ => "ad".toList, wtIds := fun _ => "w1".toList,
    spawnOk := fun _ => true }

theorem C2_concurrency_ceiling_witness :
    (split_cycle ("805682".toList) 3 false envS tasks5raw).calls.map
      (fun c => c.args.get? 1) =
      [some ("1".toList), some ("2".toList), some ("3".toList)] ∧
    (split_cycle ("805682".toList) 3 false envS tasks5raw).processed = 3 := by
  have h := C2_concurrency_ceiling ("805682".toList) 3 envS tasks5raw
  refine ⟨?_, ?_⟩
  · rw [h.2.1]
    decide
  · rw [h.2.2.2 (fun i => rfl)]
    decide

/-- C5 counterexample: a trimmed body ending in `EXECUTE` ends with
the word `execute` in some letter case, yet `detect_execution_trigger`
returns `none`, because the `endswith` test in the source is case
sensitive. -/
theorem C5_counterexample :
    executeChars.isSuffixOf (pyLower (pyStrip ("Fix the bug EXECUTE".toList))) = true ∧
    detect_execution_trigger ("Fix the bug EXECUTE".toList) = none := by
  refine ⟨by decide, by decide⟩

/-- C5 amended: for every body whose trimmed text ends with the
lowercase literal `execute`, detection returns the execute trigger,
and the extracted prompt excludes that trailing token: after tag
removal the body splits as a front part followed by whitespace, a
case variant of `execute`, and trailing whitespace, and the extracted
prompt is exactly the stripped front part. -/
theorem C5_execute_trigger :
    ∀ body : List Char,
      executeChars.isSuffixOf (pyStrip body) = true →
      detect_execution_trigger body = some executeChars ∧
      ∃ front ws1 mid ws2,
        removeInlineTags body = front ++ (ws1 ++ mid ++ ws2) ∧
        (∀ c ∈ ws1, isPyWs c = true) ∧ mid.map lowerChar = executeChars ∧
        (∀ c ∈ ws2, isPyWs c = true) ∧
        extract_task_prompt body (some executeChars) = pyStrip front :=
  fun _ h => ⟨detect_exec h, extract_exec_split h⟩

theorem C5_execute_trigger_witness :
    executeChars.isSuffixOf (pyStrip ("fix parser execute".toList)) = true ∧
    (detect_execution_trigger ("fix parser execute".toList) = some executeChars ∧
     ∃ front ws1 mid ws2,
       removeInlineTags ("fix parser execute".toList) = front ++ (ws1 ++ mid ++ ws2) ∧
       (∀ c ∈ ws1, isPyWs c = true) ∧ mid.map lowerChar = executeChars ∧
       (∀ c ∈ ws2, isPyWs c = true) ∧
       extract_task_prompt ("fix parser execute".toList) (some executeChars) =
         pyStrip front) :=
  ⟨by decide, C5_execute_trigger ("fix parser execute".toList) (by decide)⟩

/-- C6 counterexample: the body contains `continue - X` with
`X = use {{model: opus}} now`, detection returns continue, yet the
extracted prompt is not `X` trimmed: the inline tag inside `X` is
removed first. -/
theorem C6_counterexample :
    detect_execution_trigger ("continue - use \x7b\x7bmodel: opus\x7d\x7d now".toList) =
      some continueChars ∧
    extract_task_prompt ("continue - use \x7b\x7bmodel: opus\x7d\x7d now".toList)
      (some continueChars) = "use  now".toList ∧
    "use  now".toList ≠ pyStrip ("use \x7b\x7bmodel: opus\x7d\x7d now".toList) := by
  refine ⟨by decide, by decide, by decide⟩

/-- C6 amended: for every body of the form `p ++ C ++ w ++ "-" ++ X`
in which the leftmost continue pattern is the exhibited one (`p`
contains no letter c in either case), `C` is a case variant of
`continue`, `w` is whitespace, `X` contains a character other than a
newline, the body contains no brace (so tag removal cannot alter the
captured text), and the trimmed body does not end with `execute`
(which would take priority): detection returns the continue trigger
and the extracted prompt is exactly `X` trimmed. -/
theorem C6_continue_trigger :
    ∀ p C w X : List Char,
      (∀ c ∈ p, lowerChar c ≠ 'c') →
      C.map lowerChar = continueChars →
      (∀ c ∈ w, isPyWs c = true) →
      (∃ c ∈ X, c ≠ '\n') →
      (∀ c ∈ p ++ (C ++ (w ++ '-' :: X)), c ≠ '{') →
      executeChars.isSuffixOf (pyStrip (p ++ (C ++ (w ++ '-' :: X)))) = false →
      detect_execution_trigger (p ++ (C ++ (w ++ '-' :: X))) = some continueChars ∧
      extract_task_prompt (p ++ (C ++ (w ++ '-' :: X))) (some continueChars) =
        pyStrip X := by
  intro p C w X hp hC hw hX hbrace hexec
  have hXne : X ≠ [] := by
    obtain ⟨c, hc, _⟩ := hX
    intro h0
    rw [h0] at hc
    simp at hc
  exact ⟨detect_continue_eq hC hw hX hexec, extract_continue_eq hp hC hw hXne hbrace⟩

theorem C6_continue_trigger_witness :
    detect_execution_trigger ("task ".toList ++ ("Continue".toList ++
      ([' '] ++ '-' :: " fix the bug".toList))) = some continueChars ∧
    extract_task_prompt ("task ".toList ++ ("Continue".toList ++
      ([' '] ++ '-' :: " fix the bug".toList))) (some continueChars) =
      pyStrip (" fix the bug".toList) :=
  C6_continue_trigger ("task ".toList) ("Continue".toList) [' '] (" fix the bug".toList)
    (by decide) (by decide) (by decide) (by decide) (by decide) (by decide)

/-- C7 counterexample: the cleaned prompt for a body with a malformed
brace span and a repeated keyword contains both a `{{...}}` span and
the raw trigger keyword `execute`: only the trailing trigger token is
stripped, and only well-formed `{{word: value}}` tags are removed. -/
theorem C7_counterexample :
    detect_execution_trigger ("note \x7b\x7ba b\x7d\x7d then execute execute".toList) =
      some executeChars ∧
    extract_task_prompt ("note \x7b\x7ba b\x7d\x7d then execute execute".toList)
      (some executeChars) = "note \x7b\x7ba b\x7d\x7d then execute".toList ∧
    hasInfixL ("\x7b\x7ba b\x7d\x7d".toList)
      (extract_task_prompt ("note \x7b\x7ba b\x7d\x7d then execute execute".toList)
        (some executeChars)) = true ∧
    ciHasPat executeChars
      (extract_task_prompt ("note \x7b\x7ba b\x7d\x7d then execute execute".toList)
        (some executeChars)) = true := by
  refine ⟨by decide, by decide, by decide, by decide⟩

/-- C7 amended: the cleaned prompt contains no `{{` and no occurrence
of the detected trigger keyword under the following restrictions.
For the execute trigger: the body is brace-free content followed by
nonempty whitespace and a final lowercase `execute`, and `execute`
occurs case-insensitively nowhere else.  For the continue trigger:
the body starts with a case variant of `continue` followed by
whitespace, a hyphen and text `X`, the body is brace-free, its
trimmed form does not end in `execute`, `X` has a non-newline
character, and `continue` does not occur case-insensitively in `X`.
Outside these restrictions the invariant fails (see the
counterexample). -/
theorem C7_prompt_invariant_restricted :
    (∀ core ws : List Char,
      (∀ c ∈ core, c ≠ '{') → ws ≠ [] → (∀ c ∈ ws, isPyWs c = true) →
      ciHasPat executeChars (core ++ ws) = false →
      detect_execution_trigger (core ++ ws ++ executeChars) = some executeChars ∧
      hasInfixL ("\x7b\x7b".toList)
        (extract_task_prompt (core ++ ws ++ executeChars) (some executeChars)) = false ∧
      ciHasPat executeChars
        (extract_task_prompt (core ++ ws ++ executeChars) (some executeChars)) = false) ∧
    (∀ C w X : List Char,
      C.map lowerChar = continueChars → (∀ c ∈ w, isPyWs c = true) →
      (∃ c ∈ X, c ≠ '\n') →
      (∀ c ∈ C ++ (w ++ '-' :: X), c ≠ '{') →
      executeChars.isSuffixOf (pyStrip (C ++ (w ++ '-' :: X))) = false →
      ciHasPat continueChars X = false →
      detect_execution_trigger (C ++ (w ++ '-' :: X)) = some continueChars ∧
      hasInfixL ("\x7b\x7b".toList)
        (extract_task_prompt (C ++ (w ++ '-' :: X)) (some continueChars)) = false ∧
      ciHasPat continueChars
        (extract_task_prompt (C ++ (w ++ '-' :: X)) (some continueChars)) = false) := by
  constructor
  · intro core ws hcore hwsne hws hnoexec
    have hdrop : ((core ++ ws) ++ executeChars).dropWhile isPyWs =
        (core ++ ws).dropWhile isPyWs ++ executeChars := by
      rcases hdu : (core ++ ws).dropWhile isPyWs with _ | ⟨d, r⟩
      · rw [dropWhile_append_nil _ hdu]
        decide
      · rw [dropWhile_append_cons hdu]
        rfl
    have hsuffix : executeChars.isSuffixOf
        (pyStrip ((core ++ ws) ++ executeChars)) = true := by
      rw [pyStrip, hdrop]
      have hdt : dropTrailWs ((core ++ ws).dropWhile isPyWs ++ executeChars) =
          (core ++ ws).dropWhile isPyWs ++ executeChars := by
        rw [dropTrailWs, List.reverse_append]
        have h0 : executeChars.reverse ++ ((core ++ ws).dropWhile isPyWs).reverse =
            'e' :: (['t', 'u', 'c', 'e', 'x', 'e'] ++
              ((core ++ ws).dropWhile isPyWs).reverse) := rfl
        rw [h0, List.dropWhile_cons, if_neg (by decide), ← h0, ← List.reverse_append,
          List.reverse_reverse]
      rw [hdt]
      exact List.isSuffixOf_iff_suffix.mpr ⟨(core ++ ws).dropWhile isPyWs, rfl⟩
    refine ⟨detect_exec hsuffix, ?_⟩
    obtain ⟨front, ws1, mid, ws2, heq, hws1, hmid, hws2, hext⟩ :=
      extract_exec_split hsuffix
    have hid : removeInlineTags ((core ++ ws) ++ executeChars) =
        (core ++ ws) ++ executeChars := by
      apply removeInlineTags_id_of_no_brace
      intro c hc
      rcases List.mem_append.mp hc with hc | hc
      · rcases List.mem_append.mp hc with hc | hc
        · exact hcore c hc
        · exact (isPyWs_ne_special (hws c hc)).1
      · exact (executeChars_safe c hc).1
    rw [hid] at heq
    have hmidlen : mid.length = 7 := by
      have h0 := congrArg List.length hmid
      simp only [List.length_map] at h0
      rw [h0]
      decide
    have h7 : executeChars.length = 7 := by decide
    have hfl : front.length ≤ (core ++ ws).length := by
      have hlen := congrArg List.length heq
      simp only [List.length_append] at hlen ⊢
      omega
    have hfront : front = (core ++ ws).take front.length := by
      have h1 : ((core ++ ws) ++ executeChars).take front.length = front := by
        rw [heq]
        exact List.take_left front (ws1 ++ mid ++ ws2)
      have h2 : ((core ++ ws) ++ executeChars).take front.length =
          (core ++ ws).take front.length := List.take_append_of_le_length hfl
      rw [← h2]
      exact h1.symm
    constructor
    · rw [hext]
      by_contra hne
      rw [Bool.not_eq_false] at hne
      have hb1 : '{' ∈ pyStrip front := hasInfixL_head_mem hne
      have hb2 : '{' ∈ front := mem_of_mem_pyStrip hb1
      rw [hfront] at hb2
      have hb3 : '{' ∈ core ++ ws := List.take_subset _ _ hb2
      rcases List.mem_append.mp hb3 with hb3 | hb3
      · exact hcore _ hb3 rfl
      · exact (isPyWs_ne_special (hws _ hb3)).1 rfl
    · rw [hext]
      by_contra hne
      rw [Bool.not_eq_false] at hne
      obtain ⟨a2, b2, hsplit2, _, _⟩ := pyStrip_split front
      have h1 : ciHasPat executeChars front = true := by
        rw [hsplit2]
        exact ciHasPat_infix a2 b2 hne
      have h4 : core ++ ws = front ++ (core ++ ws).drop front.length := by
        conv_lhs => rw [← List.take_append_drop front.length (core ++ ws)]
        rw [← hfront]
      have h2 : ciHasPat executeChars (core ++ ws) = true := by
        rw [h4]
        exact ciHasPat_append_right _ h1
      rw [hnoexec] at h2
      exact absurd h2 (by simp)
  · intro C w X hC hw hX hbrace hexec hnc
    have hXne : X ≠ [] := by
      obtain ⟨c, hc, _⟩ := hX
      intro h0
      rw [h0] at hc
      simp at hc
    have hext : extract_task_prompt (C ++ (w ++ '-' :: X)) (some continueChars) =
        pyStrip X :=
      extract_continue_eq (p := []) (fun c hc => absurd hc (List.not_mem_nil c))
        hC hw hXne hbrace
    refine ⟨detect_continue_eq (p := []) hC hw hX hexec, ?_, ?_⟩
    · rw [hext]
      by_contra hne
      rw [Bool.not_eq_false] at hne
      have hb1 : '{' ∈ pyStrip X := hasInfixL_head_mem hne
      have hb2 : '{' ∈ X := mem_of_mem_pyStrip hb1
      exact hbrace '{' (by simp [hb2]) rfl
    · rw [hext]
      by_contra hne
      rw [Bool.not_eq_false] at hne
      obtain ⟨a2, b2, hsplit2, _, _⟩ := pyStrip_split X
      have h1 : ciHasPat continueChars X = true := by
        rw [hsplit2]
        exact ciHasPat_infix a2 b2 hne
      rw [hnc] at h1
      exact absurd h1 (by simp)

theorem C7_prompt_invariant_restricted_witness :
    (detect_execution_trigger ("update the docs".toList ++ [' '] ++ executeChars) =
      some executeChars ∧
     hasInfixL ("\x7b\x7b".toList)
       (extract_task_prompt ("update the docs".toList ++ [' '] ++ executeChars)
         (some executeChars)) = false ∧
     ciHasPat executeChars
       (extract_task_prompt ("update the docs".toList ++ [' '] ++ executeChars)
         (some executeChars)) = false) ∧
    (detect_execution_trigger ("Continue".toList ++ ([' '] ++ '-' :: " add tests".toList)) =
      some continueChars ∧
     hasInfixL ("\x7b\x7b".toList)
       (extract_task_prompt ("Continue".toList ++ ([' '] ++ '-' :: " add tests".toList))
         (some continueChars)) = false ∧
     ciHasPat continueChars
       (extract_task_prompt ("Continue".toList ++ ([' '] ++ '-' :: " add tests".toList))
         (some continueChars)) = false) :=
  ⟨C7_prompt_invariant_restricted.1 ("update the docs".toList) [' ']
     (by decide) (by decide) (by decide) (by decide),
   C7_prompt_invariant_restricted.2 ("Continue".toList) [' '] (" add tests".toList)
     (by decide) (by decide) (by decide) (by decide) (by decide) (by decide)⟩
